import Mathlib

/-!
Verification development for selecao_pedidos_otima.py, a constraint-satisfaction
script built on the aima-python NaryCSP interface.

The embedding below follows the source file.  Python dictionaries (insertion
ordered, unique keys) are modelled as association lists; Python sets of natural
numbers are modelled as finite sets (`Finset Nat`), exposing exactly the two
operations the source uses on them, namely `len` (cardinality) and `sorted`
(the ascending enumeration).
-/

set_option maxHeartbeats 1000000

abbrev Var := String

abbrev Assignment := List (Var × Nat)

/-- Python dictionary read access: the value stored at the first (and, for a
well-formed dictionary, only) occurrence of the key. -/
def alookup {β : Type} : List (Var × β) → Var → Option β
  | [], _ => none
  | (k, y) :: rest, v => if k = v then some y else alookup rest v

/-- Python membership test `v in d` on a dictionary. -/
def hasKey (a : Assignment) (v : Var) : Bool := (alookup a v).isSome

/-- Python dictionary write `d[k] = x`: update in place when the key is
present, append a new entry otherwise. -/
def dictSet : Assignment → Var → Nat → Assignment
  | [], v, x => [(v, x)]
  | (k, y) :: rest, v, x => if k = v then (k, x) :: rest else (k, y) :: dictSet rest v x

/-- A constraint: a scope (ordered tuple of variable names) together with a
boolean predicate on the tuple of values of the scope, in scope order
(`Constraint(scope, condition)` from the aima csp interface). -/
structure Constraint where
  scope : List Var
  condition : List Nat → Bool

/-- The constraint model: the variable-to-domain dictionary and the constraint
list (`NaryCSP(domains, constraints)` from the aima csp interface). -/
structure NaryCSP where
  domains : List (Var × Finset Nat)
  constraints : List Constraint

def NaryCSP.vars (csp : NaryCSP) : List Var := csp.domains.map Prod.fst

def NaryCSP.domainOf (csp : NaryCSP) (v : Var) : Finset Nat :=
  (alookup csp.domains v).getD ∅

/-- Modelled from the spec: the aima csp.py file defining `Constraint.holds`
is not under src/.  Spec 4.1: evaluate the predicate with the corresponding
assignment values in scope order. -/
def Constraint.holds (c : Constraint) (a : Assignment) : Bool :=
  c.condition (c.scope.map (fun v => (alookup a v).getD 0))

/-- Whether every variable of the scope of the constraint is present in the
assignment (spec 4.1: "if every variable in that constraint's scope is present
in the assignment"). -/
def Constraint.covered (c : Constraint) (a : Assignment) : Bool :=
  c.scope.all (fun v => hasKey a v)

/-- Modelled from the spec: the aima csp.py file defining `NaryCSP.consistent`
is not under src/.  Spec 4.1: a constraint whose scope is fully covered must
hold; a constraint whose scope is not fully covered is silently skipped. -/
def NaryCSP.consistent (csp : NaryCSP) (a : Assignment) : Bool :=
  csp.constraints.all (fun c => !(c.covered a) || c.holds a)

/-- Source line 91: `unassigned = [v for v in csp.domains if v not in assignment]`. -/
def unassignedList (csp : NaryCSP) (a : Assignment) : List Var :=
  csp.vars.filter (fun v => !(hasKey a v))

/-- Python `min(best :: l, key)` : the first element attaining the minimal key
(`min` replaces its running best only on strictly smaller keys). -/
def pyMinAux (key : Var → Nat) : Var → List Var → Var
  | best, [] => best
  | best, v :: vs => pyMinAux key (if key v < key best then v else best) vs

/-- Source line 92: `var = min(unassigned, key=lambda v: len(csp.domains[v]))`
on the nonempty list `u :: us`. -/
def selectVar (csp : NaryCSP) (u : Var) (us : List Var) : Var :=
  pyMinAux (fun v => (csp.domainOf v).card) u us

/-- Source line 93: `sorted(csp.domains[var])`, the ascending enumeration of
the (set-valued) domain. -/
def sortedDomain (csp : NaryCSP) (v : Var) : List Nat :=
  (csp.domainOf v).sort (· ≤ ·)

/-- Source lines 86-97, the backtracking generator, with an explicit fuel
argument to drive the recursion (each recursive call binds one additional
variable, so `csp.domains.length + 1` units of fuel always suffice; see
`backtracking` below).  The generator concatenates, in order, the solution
sequences of the consistent one-variable extensions.  In the branch where the
assignment is incomplete but no domain variable is unassigned, the Python code
raises `ValueError` (`min` of an empty sequence); that branch is unreachable
for assignments drawn from the model variables, and is rendered as the empty
sequence here. -/
def backtrackingAux (fuel : Nat) (csp : NaryCSP) (assignment : Assignment) : List Assignment :=
  match fuel with
  | 0 => []
  | fuel + 1 =>
    if assignment.length = csp.domains.length then [assignment]
    else
      match unassignedList csp assignment with
      | [] => []
      | u :: us =>
        let var := selectVar csp u us
        (sortedDomain csp var).flatMap (fun value =>
          let newAssignment := dictSet assignment var value
          if csp.consistent newAssignment = true then backtrackingAux fuel csp newAssignment
          else [])

/-- Source line 86: `def backtracking(csp, assignment={})`.  The fuel
`csp.domains.length + 1` dominates the recursion depth from any starting
assignment over the model variables. -/
def backtracking (csp : NaryCSP) (assignment : Assignment) : List Assignment :=
  backtrackingAux (csp.domains.length + 1) csp assignment

/-! ## The concrete problem instance (source lines 10-81) -/

def orders : List (List Nat) :=
  [[3, 0, 1, 0, 0], [0, 1, 0, 1, 0], [0, 0, 1, 0, 2], [1, 0, 2, 1, 1], [0, 1, 0, 0, 0]]

def order_totals : List Nat := orders.map (fun o => o.sum)

def corridors : List (List Nat) :=
  [[2, 1, 1, 0, 1], [2, 1, 2, 0, 1], [0, 2, 0, 1, 2], [2, 1, 0, 1, 1], [0, 1, 2, 1, 2]]

def LB : Nat := 5

def UB : Nat := 12

/-- Source line 43: the f-string `f"Pedido{o + 1}"`. -/
def pedidoName (o : Nat) : Var := "Pedido" ++ toString (o + 1)

/-- Source line 45: the f-string `f"Corredor{a + 1}"`. -/
def corredorName (a : Nat) : Var := "Corredor" ++ toString (a + 1)

/-- Source lines 41-45: the domain dictionary, Pedido1..Pedido5 then
Corredor1..Corredor5, each mapped to the set of 0 and 1. -/
def instanceDomains : List (Var × Finset Nat) :=
  ((List.range orders.length).map (fun o => (pedidoName o, ({0, 1} : Finset Nat)))) ++
    ((List.range corridors.length).map (fun a => (corredorName a, ({0, 1} : Finset Nat))))

/-- Source lines 53-55: the collected total of the selected orders must lie
between LB and UB. -/
def total_demand_constraint (order_vals : List Nat) : Bool :=
  decide (LB ≤ ((order_totals.zip order_vals).map (fun p => p.1 * p.2)).sum ∧
    ((order_totals.zip order_vals).map (fun p => p.1 * p.2)).sum ≤ UB)

def orders_variables : List Var := (List.range orders.length).map pedidoName

/-- Source lines 62-71: for item `i`, the demand of the selected orders
(first five values) must not exceed the capacity of the selected corridors
(last five values). -/
def item_constraint_factory (i : Nat) (vals : List Nat) : Bool :=
  decide ((((List.range 5).map
      (fun o => ((orders.getD o []).getD i 0) * ((vals.take 5).getD o 0))).sum) ≤
    (((List.range 5).map
      (fun a => ((corridors.getD a []).getD i 0) * ((vals.drop 5).getD a 0))).sum))

def all_variables : List Var :=
  orders_variables ++ (List.range corridors.length).map corredorName

/-- Source lines 49-78: the total-demand constraint followed by the five
per-item constraints. -/
def instanceConstraints : List Constraint :=
  ⟨orders_variables, total_demand_constraint⟩ ::
    (List.range orders.length).map (fun j => ⟨all_variables, item_constraint_factory j⟩)

/-- Source line 81: `csp_instance = NaryCSP(domains, constraints)`. -/
def csp_instance : NaryCSP := ⟨instanceDomains, instanceConstraints⟩

/-- Source line 104: total units of the selected orders. -/
def totalUnits (solution : Assignment) : Nat :=
  ((List.range orders.length).map
    (fun o => (order_totals.getD o 0) * ((alookup solution (pedidoName o)).getD 0))).sum

/-- Source line 105: number of corridors used. -/
def numCorridors (solution : Assignment) : Nat :=
  ((List.range corridors.length).map
    (fun a => (alookup solution (corredorName a)).getD 0)).sum

/-- Source lines 103-106: the productivity objective, with the value -1 when
no corridor is selected. -/
def objective (solution : Assignment) : ℚ :=
  if 0 < numCorridors solution then (totalUnits solution : ℚ) / (numCorridors solution : ℚ)
  else -1

/-- Source line 109: `solutions = list(backtracking(csp_instance))`. -/
def solutions : List Assignment := backtracking csp_instance []

/-- Source lines 134-142: the selection loop state is the triple
(best_solution, best_obj, best_index), threaded left to right over the
enumerated solution list with 1-based indices. -/
def bestLoop : List Assignment → Int → (Option Assignment × ℚ × Int) → (Option Assignment × ℚ × Int)
  | [], _, st => st
  | sol :: rest, idx, (bs, bo, bi) =>
    if bo ≤ objective sol then bestLoop rest (idx + 1) (some sol, objective sol, idx)
    else bestLoop rest (idx + 1) (bs, bo, bi)

/-- Source lines 134-142: run the selection loop from the sentinel state
(None, -1, -1) with indices enumerated from 1. -/
def selectBest (sols : List Assignment) : Option Assignment × ℚ × Int :=
  bestLoop sols 1 (none, -1, -1)

/-- The data printed by `print_solution` (source lines 114-126): selected
order names, selected corridor names, total units, number of corridors,
objective value and the wave index. -/
structure WaveReport where
  ordersSelected : List Var
  corridorsSelected : List Var
  waveTotalUnits : Nat
  waveNumCorridors : Nat
  objectiveValue : ℚ
  waveIndex : Int
deriving DecidableEq

/-- Source lines 114-126 and the final call on line 145: `print_solution`
subscripts its first argument (`sol[f"Pedido{o + 1}"]`).  The final call
passes `best_solution`, which is `None` when the solution list is empty; in
Python, subscripting `None` raises `TypeError`, modelled here as an error
result. -/
def print_solution (sol : Option Assignment) (index : Int) : Except String WaveReport :=
  match sol with
  | none => Except.error "TypeError: NoneType object is not subscriptable"
  | some s =>
    Except.ok
      ⟨((List.range orders.length).filter
          (fun o => (alookup s (pedidoName o)).getD 0 = 1)).map pedidoName,
        ((List.range corridors.length).filter
          (fun a => (alookup s (corredorName a)).getD 0 = 1)).map corredorName,
        totalUnits s, numCorridors s, objective s, index⟩

/-! ## Brute-force reference enumeration (spec 8, Completeness) -/

/-- All complete assignments over the given domain list, one domain value per
variable, in declaration order; the reference enumeration the spec compares
the engine against. -/
def allAssignments : List (Var × Finset Nat) → List Assignment
  | [] => [[]]
  | (v, d) :: rest =>
    (d.sort (· ≤ ·)).flatMap (fun x => (allAssignments rest).map (fun b => (v, x) :: b))

/-- Brute force following the spec wording: every complete assignment,
filtered by the consistency check of the model. -/
def bruteForce (csp : NaryCSP) : List Assignment :=
  (allAssignments csp.domains).filter (fun a => csp.consistent a)

/-- The canonical view of an assignment: its lookup function tabulated over
the model variables in declaration order.  Two assignments are the same
Python dictionary over the model variables exactly when their canonical views
are equal. -/
def canon (csp : NaryCSP) (a : Assignment) : List (Option Nat) :=
  csp.vars.map (fun v => alookup a v)

/-! ## Small concrete models used as test inputs -/

/-- A model with no variables and one nullary, always-false constraint. -/
def degenCSP : NaryCSP := ⟨[], [⟨[], fun _ => false⟩]⟩

/-- A one-variable model with an always-false constraint over it. -/
def unsatCSP : NaryCSP := ⟨[("X", ({0, 1} : Finset Nat))], [⟨["X"], fun _ => false⟩]⟩

/-- The two-variable scenario of spec 8: A + B = 1. -/
def cspAB : NaryCSP :=
  ⟨[("A", ({0, 1} : Finset Nat)), ("B", ({0, 1} : Finset Nat))],
    [⟨["A", "B"], fun vals => decide (vals.getD 0 0 + vals.getD 1 0 = 1)⟩]⟩

/-! ## The search invariant -/

/-- The invariant of every assignment reachable by the search: keys are
pairwise distinct (a Python dictionary), every key is a model variable, and
every stored value belongs to the domain of its key. -/
structure Valid (csp : NaryCSP) (a : Assignment) : Prop where
  nodup : (a.map Prod.fst).Nodup
  keysSub : ∀ p ∈ a, p.1 ∈ csp.vars
  valsDom : ∀ p ∈ a, p.2 ∈ csp.domainOf p.1

/-- Extension order between assignments: every binding of `a` is present,
with the same value, in `b`. -/
def Agrees (a b : Assignment) : Prop :=
  ∀ v, hasKey a v = true → alookup b v = alookup a v

/-- The complete assignment over the model variables, in declaration order,
that agrees with `b` on every variable. -/
def tabulate (b : Assignment) (doms : List (Var × Finset Nat)) : Assignment :=
  doms.map (fun q => (q.1, (alookup b q.1).getD 0))

/-! ## Heap model of the dictionary objects (claims C6 and C9)

The Python function receives its assignment dictionary by reference, and the
default argument of `backtracking(csp, assignment={})` is one shared object
created once.  To make mutation and aliasing observable, the search is also
embedded against an explicit heap of dictionary objects: `assignment.copy()`
allocates a fresh object and `new_assignment[var] = value` mutates the fresh
object in place, exactly as in the source. -/

structure DictHeap where
  store : List Assignment

/-- Dereference a dictionary object (out-of-range addresses never arise along
the modelled runs). -/
def DictHeap.get (h : DictHeap) (r : Nat) : Assignment := h.store.getD r []

/-- `assignment.copy()`: allocate a fresh object holding the given value and
return its address. -/
def DictHeap.alloc (h : DictHeap) (a : Assignment) : Nat × DictHeap :=
  (h.store.length, ⟨h.store ++ [a]⟩)

/-- `d[var] = value` on the object at address `r`, in place. -/
def DictHeap.setKey (h : DictHeap) (r : Nat) (v : Var) (x : Nat) : DictHeap :=
  ⟨h.store.set r (dictSet (h.store.getD r []) v x)⟩

mutual

/-- Source lines 86-97 with the assignment dictionaries held in the explicit
heap: the function receives the address `r` of its assignment object. -/
def backtrackingH (fuel : Nat) (csp : NaryCSP) (r : Nat) (h : DictHeap) :
    List Assignment × DictHeap :=
  match fuel with
  | 0 => ([], h)
  | fuel + 1 =>
    if (h.get r).length = csp.domains.length then ([h.get r], h)
    else
      match unassignedList csp (h.get r) with
      | [] => ([], h)
      | u :: us =>
        btLoopH fuel csp r (selectVar csp u us)
          (sortedDomain csp (selectVar csp u us)) h
termination_by (fuel, 0)

/-- The `for value in sorted(csp.domains[var])` loop of the source: each
iteration allocates `assignment.copy()`, binds the selected variable on the
fresh copy in place, and recurses on the copy when it is consistent; the heap
is threaded through the iterations. -/
def btLoopH (fuel : Nat) (csp : NaryCSP) (r : Nat) (var : Var) (values : List Nat)
    (h : DictHeap) : List Assignment × DictHeap :=
  match values with
  | [] => ([], h)
  | value :: rest =>
    let p := h.alloc (h.get r)
    let h2 := p.2.setKey p.1 var value
    if csp.consistent (h2.get p.1) = true then
      let q := backtrackingH fuel csp p.1 h2
      let m := btLoopH fuel csp r var rest q.2
      (q.1 ++ m.1, m.2)
    else
      btLoopH fuel csp r var rest h2
termination_by (fuel, values.length + 1)

end

/-- The heap produced by one `assignment.copy(); new_assignment[var] = value`
step: the old store plus one fresh object holding the extended assignment. -/
def childHeap (h : DictHeap) (r : Nat) (var : Var) (value : Nat) : DictHeap :=
  ⟨h.store ++ [dictSet (h.get r) var value]⟩

/-! ## Selected-order and selected-corridor sums (the claim C3 vocabulary) -/

/-- Indices of the selected orders of a solution (value 1). -/
def selectedOrderIdx (sol : Assignment) : List Nat :=
  (List.range 5).filter (fun o => decide ((alookup sol (pedidoName o)).getD 0 = 1))

/-- Indices of the selected corridors of a solution (value 1). -/
def selectedCorridorIdx (sol : Assignment) : List Nat :=
  (List.range 5).filter (fun a => decide ((alookup sol (corredorName a)).getD 0 = 1))

/-- Total collected units: the sum of order_totals over the selected orders. -/
def collectedUnits (sol : Assignment) : Nat :=
  ((selectedOrderIdx sol).map (fun o => order_totals.getD o 0)).sum

/-- Demand of item i: the sum of orders[o][i] over the selected orders. -/
def itemDemand (i : Nat) (sol : Assignment) : Nat :=
  ((selectedOrderIdx sol).map (fun o => (orders.getD o []).getD i 0)).sum

/-- Capacity of item i: the sum of corridors[a][i] over the selected corridors. -/
def itemCapacity (i : Nat) (sol : Assignment) : Nat :=
  ((selectedCorridorIdx sol).map (fun a => (corridors.getD a []).getD i 0)).sum

/-- A concrete feasible wave: orders 1 and 2, all five corridors. -/
def wave0 : Assignment := [("Pedido1", 1), ("Pedido2", 1), ("Pedido3", 0), ("Pedido4", 0), ("Pedido5", 0), ("Corredor1", 1), ("Corredor2", 1), ("Corredor3", 1), ("Corredor4", 1), ("Corredor5", 1)]

/-- A complete assignment over the instance variables selecting order 1 and
corridor 1 only. -/
def tieWaveA : Assignment :=
  [("Pedido1", 1), ("Pedido2", 0), ("Pedido3", 0), ("Pedido4", 0), ("Pedido5", 0),
    ("Corredor1", 1), ("Corredor2", 0), ("Corredor3", 0), ("Corredor4", 0), ("Corredor5", 0)]

/-- A complete assignment over the instance variables selecting order 1 and
corridor 2 only; its objective value ties with tieWaveA. -/
def tieWaveB : Assignment :=
  [("Pedido1", 1), ("Pedido2", 0), ("Pedido3", 0), ("Pedido4", 0), ("Pedido5", 0),
    ("Corredor1", 0), ("Corredor2", 1), ("Corredor3", 0), ("Corredor4", 0), ("Corredor5", 0)]

/-! ## Lemmas and claim theorems -/

/-! ## Dictionary lemmas -/

theorem alookup_append {β : Type} (a b : List (Var × β)) (v : Var) :
    alookup (a ++ b) v = ((alookup a v).rec (alookup b v) (fun y => some y)) := by
  induction a with
  | nil => rfl
  | cons p rest ih =>
    obtain ⟨k, y⟩ := p
    by_cases h : k = v
    · simp [alookup, h]
    · simpa [alookup, h] using ih

theorem alookup_append_of_hasKey (a b : Assignment) (v : Var) (h : hasKey a v = true) :
    alookup (a ++ b) v = alookup a v := by
  unfold hasKey at h
  rw [alookup_append]
  cases halt : alookup a v with
  | none => rw [halt] at h; simp at h
  | some y => rfl

theorem alookup_append_of_not_hasKey (a b : Assignment) (v : Var) (h : hasKey a v = false) :
    alookup (a ++ b) v = alookup b v := by
  unfold hasKey at h
  rw [alookup_append]
  cases halt : alookup a v with
  | none => rfl
  | some y => rw [halt] at h; simp at h

theorem dictSet_of_not_hasKey (a : Assignment) (v : Var) (x : Nat) (h : hasKey a v = false) :
    dictSet a v x = a ++ [(v, x)] := by
  induction a with
  | nil => rfl
  | cons p rest ih =>
    obtain ⟨k, y⟩ := p
    unfold hasKey alookup at h
    by_cases hk : k = v
    · rw [if_pos hk] at h; simp at h
    · rw [if_neg hk] at h
      simp only [dictSet, if_neg hk, List.cons_append, List.cons.injEq, true_and]
      exact ih h

theorem hasKey_iff_mem_keys (a : Assignment) (v : Var) :
    hasKey a v = true ↔ v ∈ a.map Prod.fst := by
  induction a with
  | nil => simp [hasKey, alookup]
  | cons p rest ih =>
    obtain ⟨k, y⟩ := p
    by_cases hk : k = v
    · simp [hasKey, alookup, hk]
    · simp only [hasKey, alookup, if_neg hk, List.map_cons, List.mem_cons]
      rw [← ih]
      simp [hasKey, Ne.symm hk]

theorem alookup_some_mem {β : Type} (a : List (Var × β)) (v : Var) (x : β)
    (h : alookup a v = some x) : (v, x) ∈ a := by
  induction a with
  | nil => simp [alookup] at h
  | cons p rest ih =>
    obtain ⟨k, y⟩ := p
    by_cases hk : k = v
    · rw [alookup, if_pos hk] at h
      subst hk
      cases h
      simp
    · rw [alookup, if_neg hk] at h
      exact List.mem_cons_of_mem _ (ih h)

theorem alookup_eq_some_of_mem_of_nodup {β : Type} (l : List (Var × β)) (p : Var × β)
    (hnd : (l.map Prod.fst).Nodup) (hp : p ∈ l) : alookup l p.1 = some p.2 := by
  induction l with
  | nil => simp at hp
  | cons q rest ih =>
    obtain ⟨k, y⟩ := q
    simp only [List.map_cons, List.nodup_cons] at hnd
    rcases List.mem_cons.mp hp with h | h
    · subst h
      simp [alookup]
    · have hk : k ≠ p.1 := by
        intro hkeq
        exact hnd.1 (hkeq ▸ (List.mem_map.mpr ⟨p, h, rfl⟩))
      rw [alookup, if_neg hk]
      exact ih hnd.2 h

theorem hasKey_append_single (a : Assignment) (v w : Var) (x : Nat) :
    hasKey (a ++ [(v, x)]) w = (hasKey a w || decide (v = w)) := by
  by_cases h : hasKey a w = true
  · rw [hasKey, alookup_append_of_hasKey a _ w h, ← hasKey, h, Bool.true_or]
  · rw [Bool.not_eq_true] at h
    rw [hasKey, alookup_append_of_not_hasKey a _ w h, h, Bool.false_or]
    by_cases hv : v = w
    · simp [alookup, hv]
    · simp [alookup, hv]

/-! ## Python min lemmas -/

theorem pyMinAux_mem (key : Var → Nat) (b : Var) (l : List Var) :
    pyMinAux key b l ∈ b :: l := by
  induction l generalizing b with
  | nil => simp [pyMinAux]
  | cons v vs ih =>
    rw [pyMinAux]
    by_cases h : key v < key b
    · rw [if_pos h]
      rcases List.mem_cons.mp (ih v) with h1 | h1
      · rw [h1]
        exact List.mem_cons_of_mem _ (List.mem_cons_self _ _)
      · exact List.mem_cons_of_mem _ (List.mem_cons_of_mem _ h1)
    · rw [if_neg h]
      rcases List.mem_cons.mp (ih b) with h1 | h1
      · rw [h1]
        exact List.mem_cons_self _ _
      · exact List.mem_cons_of_mem _ (List.mem_cons_of_mem _ h1)

theorem pyMinAux_le (key : Var → Nat) (b : Var) (l : List Var) :
    ∀ w ∈ b :: l, key (pyMinAux key b l) ≤ key w := by
  induction l generalizing b with
  | nil =>
    intro w hw
    rcases List.mem_cons.mp hw with h | h
    · exact h ▸ le_refl _
    · simp at h
  | cons v vs ih =>
    intro w hw
    rw [pyMinAux]
    by_cases h : key v < key b
    · rw [if_pos h]
      rcases List.mem_cons.mp hw with h1 | h1
      · calc key (pyMinAux key v vs) ≤ key v := ih v v (List.mem_cons_self _ _)
          _ ≤ key w := h1 ▸ le_of_lt h
      · exact ih v w h1
    · rw [if_neg h]
      rcases List.mem_cons.mp hw with h1 | h1
      · exact h1 ▸ ih b b (List.mem_cons_self _ _)
      · rcases List.mem_cons.mp h1 with h2 | h2
        · calc key (pyMinAux key b vs) ≤ key b := ih b b (List.mem_cons_self _ _)
            _ ≤ key w := h2 ▸ le_of_not_lt h
        · exact ih b w (List.mem_cons_of_mem _ h2)

theorem pyMinAux_first (key : Var → Nat) (b : Var) (l : List Var) :
    ∃ l1 l2, b :: l = l1 ++ pyMinAux key b l :: l2 ∧
      ∀ w ∈ l1, key (pyMinAux key b l) < key w := by
  induction l generalizing b with
  | nil => exact ⟨[], [], rfl, by simp⟩
  | cons v vs ih =>
    rw [pyMinAux]
    by_cases h : key v < key b
    · rw [if_pos h]
      obtain ⟨l1, l2, heq, hlt⟩ := ih v
      refine ⟨b :: l1, l2, by rw [List.cons_append, ← heq], ?_⟩
      intro w hw
      rcases List.mem_cons.mp hw with h1 | h1
      · calc key (pyMinAux key v vs) ≤ key v := pyMinAux_le key v vs v (List.mem_cons_self _ _)
          _ < key w := h1 ▸ h
      · exact hlt w h1
    · rw [if_neg h]
      obtain ⟨l1, l2, heq, hlt⟩ := ih b
      cases l1 with
      | nil =>
        simp only [List.nil_append, List.cons.injEq] at heq
        refine ⟨[], v :: vs, ?_, by simp⟩
        rw [← heq.1]
        simp
      | cons c cs =>
        simp only [List.cons_append, List.cons.injEq] at heq
        obtain ⟨hb, hvs⟩ := heq
        subst hb
        refine ⟨b :: v :: cs, l2, by rw [List.cons_append, List.cons_append, ← hvs], ?_⟩
        intro w hw
        rcases List.mem_cons.mp hw with h1 | h1
        · exact h1 ▸ hlt b (List.mem_cons_self _ _)
        · rcases List.mem_cons.mp h1 with h2 | h2
          · exact h2 ▸ lt_of_lt_of_le (hlt b (List.mem_cons_self _ _)) (le_of_not_lt h)
          · exact hlt w (List.mem_cons_of_mem _ h2)

/-! ## Search-step equation lemmas -/

theorem btAux_zero (csp : NaryCSP) (a : Assignment) : backtrackingAux 0 csp a = [] := rfl

theorem btAux_complete (fuel : Nat) (csp : NaryCSP) (a : Assignment)
    (h : a.length = csp.domains.length) : backtrackingAux (fuel + 1) csp a = [a] := by
  rw [backtrackingAux, if_pos h]

theorem btAux_stuck (fuel : Nat) (csp : NaryCSP) (a : Assignment)
    (h1 : a.length ≠ csp.domains.length) (h2 : unassignedList csp a = []) :
    backtrackingAux (fuel + 1) csp a = [] := by
  rw [backtrackingAux, if_neg h1, h2]

theorem btAux_step (fuel : Nat) (csp : NaryCSP) (a : Assignment) (u : Var) (us : List Var)
    (h1 : a.length ≠ csp.domains.length) (h2 : unassignedList csp a = u :: us) :
    backtrackingAux (fuel + 1) csp a =
      (sortedDomain csp (selectVar csp u us)).flatMap (fun value =>
        if csp.consistent (dictSet a (selectVar csp u us) value) = true then
          backtrackingAux fuel csp (dictSet a (selectVar csp u us) value)
        else []) := by
  rw [backtrackingAux, if_neg h1, h2]

theorem valid_empty (csp : NaryCSP) : Valid csp [] :=
  ⟨List.nodup_nil, by simp, by simp⟩

theorem mem_unassigned_iff (csp : NaryCSP) (a : Assignment) (v : Var) :
    v ∈ unassignedList csp a ↔ v ∈ csp.vars ∧ hasKey a v = false := by
  unfold unassignedList
  rw [List.mem_filter]
  simp

theorem valid_extend (csp : NaryCSP) (a : Assignment) (var : Var) (value : Nat)
    (hv : Valid csp a) (hvar : var ∈ unassignedList csp a)
    (hval : value ∈ csp.domainOf var) : Valid csp (a ++ [(var, value)]) := by
  obtain ⟨hmem, hkey⟩ := (mem_unassigned_iff csp a var).mp hvar
  refine ⟨?_, ?_, ?_⟩
  · rw [List.map_append]
    rw [List.nodup_append]
    refine ⟨hv.nodup, List.nodup_singleton _, ?_⟩
    intro w hw hws
    simp only [List.map_cons, List.map_nil, List.mem_singleton] at hws
    subst hws
    exact absurd ((hasKey_iff_mem_keys a w).mpr hw) (by rw [hkey]; simp)
  · intro p hp
    rcases List.mem_append.mp hp with h | h
    · exact hv.keysSub p h
    · simp only [List.mem_singleton] at h
      subst h
      exact hmem
  · intro p hp
    rcases List.mem_append.mp hp with h | h
    · exact hv.valsDom p h
    · simp only [List.mem_singleton] at h
      subst h
      exact hval

theorem agrees_refl (a : Assignment) : Agrees a a := fun _ _ => rfl

theorem agrees_trans (a b c : Assignment) (h1 : Agrees a b) (h2 : Agrees b c) :
    Agrees a c := by
  intro v hv
  have hb := h1 v hv
  have hkb : hasKey b v = true := by
    unfold hasKey at hv ⊢
    rw [h1 v hv]
    exact hv
  rw [h2 v hkb, hb]

theorem agrees_extend (a : Assignment) (var : Var) (value : Nat) :
    Agrees a (a ++ [(var, value)]) := by
  intro v hv
  exact alookup_append_of_hasKey a _ v hv

theorem agrees_hasKey (a b : Assignment) (h : Agrees a b) (v : Var)
    (hv : hasKey a v = true) : hasKey b v = true := by
  unfold hasKey at hv ⊢
  rw [h v hv]
  exact hv

/-! ## Consistency lemmas -/

theorem covered_of_agrees (c : Constraint) (a b : Assignment) (hag : Agrees a b)
    (h : c.covered a = true) : c.covered b = true := by
  unfold Constraint.covered at h ⊢
  rw [List.all_eq_true] at h ⊢
  intro v hv
  exact agrees_hasKey a b hag v (h v hv)

theorem holds_eq_of_agrees (c : Constraint) (a b : Assignment) (hag : Agrees a b)
    (h : c.covered a = true) : c.holds b = c.holds a := by
  unfold Constraint.holds
  congr 1
  apply List.map_congr_left
  intro v hv
  unfold Constraint.covered at h
  rw [List.all_eq_true] at h
  rw [hag v (h v hv)]

/-- Monotone pruning: if an extension is consistent then so is the restricted
assignment; every constraint checkable on the restriction is checkable on the
extension with identical values. -/
theorem consistent_of_agrees (csp : NaryCSP) (a b : Assignment) (hag : Agrees a b)
    (hb : csp.consistent b = true) : csp.consistent a = true := by
  unfold NaryCSP.consistent at hb ⊢
  rw [List.all_eq_true] at hb ⊢
  intro c hc
  cases hcov : c.covered a with
  | false => simp [hcov]
  | true =>
    have hcb := covered_of_agrees c a b hag hcov
    have := hb c hc
    rw [hcb] at this
    simp only [Bool.not_true, Bool.false_or] at this
    rw [holds_eq_of_agrees c a b hag hcov] at this
    simp [this]

theorem consistent_congr (csp : NaryCSP) (a b : Assignment)
    (h : ∀ v, alookup a v = alookup b v) : csp.consistent a = csp.consistent b := by
  have hab : Agrees a b := fun v _ => (h v).symm
  have hba : Agrees b a := fun v _ => h v
  cases hca : csp.consistent a with
  | true => exact (consistent_of_agrees csp b a hba hca).symm
  | false =>
    cases hcb : csp.consistent b with
    | true => rw [← hca, consistent_of_agrees csp a b hab hcb]
    | false => rfl

/-! ## Soundness of the search -/

theorem btAux_sound (csp : NaryCSP) :
    ∀ fuel a, Valid csp a → ∀ b ∈ backtrackingAux fuel csp a,
      Valid csp b ∧ b.length = csp.domains.length ∧ Agrees a b ∧
        (csp.consistent b = true ∨ b = a) := by
  intro fuel
  induction fuel with
  | zero =>
    intro a hv b hb
    rw [btAux_zero] at hb
    simp at hb
  | succ fuel ih =>
    intro a hv b hb
    by_cases hlen : a.length = csp.domains.length
    · rw [btAux_complete fuel csp a hlen] at hb
      simp only [List.mem_singleton] at hb
      subst hb
      exact ⟨hv, hlen, agrees_refl _, Or.inr rfl⟩
    · cases hul : unassignedList csp a with
      | nil =>
        rw [btAux_stuck fuel csp a hlen hul] at hb
        simp at hb
      | cons u us =>
        rw [btAux_step fuel csp a u us hlen hul] at hb
        rw [List.mem_flatMap] at hb
        obtain ⟨value, hvalmem, hb⟩ := hb
        have hvd : value ∈ csp.domainOf (selectVar csp u us) := by
          unfold sortedDomain at hvalmem
          rwa [Finset.mem_sort] at hvalmem
        have hvaru : selectVar csp u us ∈ unassignedList csp a := by
          rw [hul]
          exact pyMinAux_mem _ u us
        have hkf : hasKey a (selectVar csp u us) = false :=
          ((mem_unassigned_iff csp a _).mp hvaru).2
        rw [dictSet_of_not_hasKey a _ value hkf] at hb
        by_cases hcons : csp.consistent (a ++ [(selectVar csp u us, value)]) = true
        · rw [if_pos hcons] at hb
          have hvnew : Valid csp (a ++ [(selectVar csp u us, value)]) :=
            valid_extend csp a _ value hv hvaru hvd
          obtain ⟨h1, h2, h3, h4⟩ := ih (a ++ [(selectVar csp u us, value)]) hvnew b hb
          refine ⟨h1, h2, agrees_trans _ _ _ (agrees_extend a _ value) h3, Or.inl ?_⟩
          rcases h4 with h | h
          · exact h
          · exact h ▸ hcons
        · rw [if_neg hcons] at hb
          simp at hb

theorem canon_eq_iff (csp : NaryCSP) (b1 b2 : Assignment) :
    canon csp b1 = canon csp b2 ↔ ∀ v ∈ csp.vars, alookup b1 v = alookup b2 v := by
  unfold canon
  exact List.map_inj_left

/-- Every solution emitted from a branch that bound `var` to `value` still
binds `var` to `value`. -/
theorem emitted_binds (csp : NaryCSP) (fuel : Nat) (a : Assignment) (var : Var) (value : Nat)
    (hkf : hasKey a var = false) (hv : Valid csp (a ++ [(var, value)])) :
    ∀ b ∈ backtrackingAux fuel csp (a ++ [(var, value)]), alookup b var = some value := by
  intro b hb
  obtain ⟨_, _, hag, _⟩ := btAux_sound csp fuel _ hv b hb
  have hk : hasKey (a ++ [(var, value)]) var = true := by
    unfold hasKey
    rw [alookup_append_of_not_hasKey a _ var hkf]
    simp [alookup]
  rw [hag var hk, alookup_append_of_not_hasKey a _ var hkf]
  simp [alookup]

/-! ## No duplicates -/

theorem btAux_canon_nodup (csp : NaryCSP) :
    ∀ fuel a, Valid csp a → ((backtrackingAux fuel csp a).map (canon csp)).Nodup := by
  intro fuel
  induction fuel with
  | zero =>
    intro a hv
    rw [btAux_zero]
    exact List.nodup_nil
  | succ fuel ih =>
    intro a hv
    by_cases hlen : a.length = csp.domains.length
    · rw [btAux_complete fuel csp a hlen]
      exact List.nodup_singleton _
    · cases hul : unassignedList csp a with
      | nil =>
        rw [btAux_stuck fuel csp a hlen hul]
        exact List.nodup_nil
      | cons u us =>
        rw [btAux_step fuel csp a u us hlen hul]
        rw [List.map_flatMap, List.nodup_flatMap]
        have hvaru : selectVar csp u us ∈ unassignedList csp a := by
          rw [hul]
          exact pyMinAux_mem _ u us
        have hvarv : selectVar csp u us ∈ csp.vars :=
          ((mem_unassigned_iff csp a _).mp hvaru).1
        have hkf : hasKey a (selectVar csp u us) = false :=
          ((mem_unassigned_iff csp a _).mp hvaru).2
        constructor
        · intro value hvalmem
          have hvd : value ∈ csp.domainOf (selectVar csp u us) := by
            unfold sortedDomain at hvalmem
            rwa [Finset.mem_sort] at hvalmem
          rw [dictSet_of_not_hasKey a _ value hkf]
          by_cases hcons : csp.consistent (a ++ [(selectVar csp u us, value)]) = true
          · rw [if_pos hcons]
            exact ih _ (valid_extend csp a _ value hv hvaru hvd)
          · rw [if_neg hcons]
            exact List.nodup_nil
        · have hsortnd : (sortedDomain csp (selectVar csp u us)).Nodup :=
            Finset.sort_nodup _ _
          refine List.Pairwise.imp_of_mem ?_ hsortnd
          intro v1 v2 hm1 hm2 hne
          have hd1 : v1 ∈ csp.domainOf (selectVar csp u us) := by
            unfold sortedDomain at hm1
            rwa [Finset.mem_sort] at hm1
          have hd2 : v2 ∈ csp.domainOf (selectVar csp u us) := by
            unfold sortedDomain at hm2
            rwa [Finset.mem_sort] at hm2
          simp only [Function.onFun]
          intro m hmem1 hmem2
          rw [dictSet_of_not_hasKey a _ v1 hkf] at hmem1
          rw [dictSet_of_not_hasKey a _ v2 hkf] at hmem2
          by_cases hc1 : csp.consistent (a ++ [(selectVar csp u us, v1)]) = true
          · rw [if_pos hc1] at hmem1
            by_cases hc2 : csp.consistent (a ++ [(selectVar csp u us, v2)]) = true
            · rw [if_pos hc2] at hmem2
              rw [List.mem_map] at hmem1 hmem2
              obtain ⟨b1, hb1, hcan1⟩ := hmem1
              obtain ⟨b2, hb2, hcan2⟩ := hmem2
              have hl1 := emitted_binds csp fuel a _ v1 hkf
                (valid_extend csp a _ v1 hv hvaru hd1) b1 hb1
              have hl2 := emitted_binds csp fuel a _ v2 hkf
                (valid_extend csp a _ v2 hv hvaru hd2) b2 hb2
              have hcan : canon csp b1 = canon csp b2 := by rw [hcan1, hcan2]
              have := (canon_eq_iff csp b1 b2).mp hcan _ hvarv
              rw [hl1, hl2] at this
              exact hne (Option.some.injEq _ _ ▸ this)
            · rw [if_neg hc2] at hmem2
              simp at hmem2
          · rw [if_neg hc1] at hmem1
            simp at hmem1

/-! ## Counting lemmas -/

theorem filter_not_length {α : Type} (p : α → Bool) (l : List α) :
    (l.filter p).length + (l.filter (fun v => !(p v))).length = l.length := by
  induction l with
  | nil => rfl
  | cons x xs ih =>
    cases hx : p x with
    | true => simp [List.filter_cons, hx, ← ih]; omega
    | false => simp [List.filter_cons, hx, ← ih]; omega

theorem length_filter_hasKey (csp : NaryCSP) (a : Assignment) (hvars : csp.vars.Nodup)
    (hv : Valid csp a) : (csp.vars.filter (fun v => hasKey a v)).length = a.length := by
  have hnd1 : (csp.vars.filter (fun v => hasKey a v)).Nodup := hvars.filter _
  have hnd2 : (a.map Prod.fst).Nodup := hv.nodup
  have hmem : ∀ v, v ∈ csp.vars.filter (fun v => hasKey a v) ↔ v ∈ a.map Prod.fst := by
    intro v
    rw [List.mem_filter]
    constructor
    · intro ⟨_, hk⟩
      exact (hasKey_iff_mem_keys a v).mp hk
    · intro hk
      obtain ⟨p, hp, hpv⟩ := List.mem_map.mp hk
      exact ⟨hpv ▸ hv.keysSub p hp, (hasKey_iff_mem_keys a v).mpr hk⟩
  have hperm : (csp.vars.filter (fun v => hasKey a v)).Perm (a.map Prod.fst) := by
    apply List.perm_of_nodup_nodup_toFinset_eq hnd1 hnd2
    ext v
    simp only [List.mem_toFinset]
    exact hmem v
  calc (csp.vars.filter (fun v => hasKey a v)).length
      = (a.map Prod.fst).length := hperm.length_eq
    _ = a.length := List.length_map _ _

theorem unassigned_length (csp : NaryCSP) (a : Assignment) (hvars : csp.vars.Nodup)
    (hv : Valid csp a) :
    (unassignedList csp a).length + a.length = csp.domains.length := by
  have h1 := filter_not_length (fun v => hasKey a v) csp.vars
  have h2 := length_filter_hasKey csp a hvars hv
  have h3 : csp.vars.length = csp.domains.length := List.length_map _ _
  unfold unassignedList
  omega

theorem hasKey_of_complete (csp : NaryCSP) (a : Assignment) (hvars : csp.vars.Nodup)
    (hv : Valid csp a) (hlen : a.length = csp.domains.length) :
    ∀ v ∈ csp.vars, hasKey a v = true := by
  have h1 := unassigned_length csp a hvars hv
  have h2 : (unassignedList csp a).length = 0 := by omega
  have h3 : unassignedList csp a = [] := List.length_eq_zero.mp h2
  intro v hvv
  have := List.filter_eq_nil_iff.mp h3 v hvv
  simp only [Bool.not_eq_true'] at this
  simpa using this

theorem unassigned_ne_nil (csp : NaryCSP) (a : Assignment) (hvars : csp.vars.Nodup)
    (hv : Valid csp a) (hlen : a.length ≠ csp.domains.length) :
    unassignedList csp a ≠ [] := by
  intro hnil
  have h1 := unassigned_length csp a hvars hv
  rw [hnil] at h1
  simp at h1
  exact hlen h1

theorem unassigned_append_single (csp : NaryCSP) (a : Assignment) (var : Var) (x : Nat) :
    unassignedList csp (a ++ [(var, x)]) =
      (unassignedList csp a).filter (fun v => !(decide (var = v))) := by
  unfold unassignedList
  rw [List.filter_filter]
  apply List.filter_congr
  intro v _
  rw [hasKey_append_single a var v x]
  rw [Bool.not_or, Bool.and_comm]

theorem length_filter_ne_lt (var : Var) (l : List Var) (h : var ∈ l) :
    (l.filter (fun v => !(decide (var = v)))).length < l.length := by
  induction l with
  | nil => simp at h
  | cons c cs ih =>
    rw [List.filter_cons]
    by_cases hc : var = c
    · subst hc
      rw [show (!(decide (var = var))) = false by simp, if_neg (by decide)]
      have h1 := List.length_filter_le (fun v => !(decide (var = v))) cs
      simp only [List.length_cons]
      omega
    · rw [show (!(decide (var = c))) = true by simp [hc], if_pos rfl]
      have hvarcs : var ∈ cs := by
        rcases List.mem_cons.mp h with h1 | h1
        · exact absurd h1 hc
        · exact h1
      have h2 := ih hvarcs
      simp only [List.length_cons]
      omega

/-! ## Completeness of the search -/

theorem btAux_complete_mem (csp : NaryCSP) (hvars : csp.vars.Nodup) :
    ∀ fuel a b, Valid csp a → (unassignedList csp a).length < fuel →
      Valid csp b → b.length = csp.domains.length → csp.consistent b = true →
      Agrees a b →
      canon csp b ∈ (backtrackingAux fuel csp a).map (canon csp) := by
  intro fuel
  induction fuel with
  | zero =>
    intro a b _ hfuel _ _ _ _
    omega
  | succ fuel ih =>
    intro a b hva hfuel hvb hblen hbcons hag
    by_cases hlen : a.length = csp.domains.length
    · rw [btAux_complete fuel csp a hlen]
      have hcan : canon csp b = canon csp a := by
        rw [canon_eq_iff]
        intro v hvv
        exact hag v (hasKey_of_complete csp a hvars hva hlen v hvv)
      rw [hcan]
      simp
    · cases hul : unassignedList csp a with
      | nil => exact absurd hul (unassigned_ne_nil csp a hvars hva hlen)
      | cons u us =>
        rw [btAux_step fuel csp a u us hlen hul]
        have hvaru : selectVar csp u us ∈ unassignedList csp a := by
          rw [hul]
          exact pyMinAux_mem _ u us
        have hvarv : selectVar csp u us ∈ csp.vars :=
          ((mem_unassigned_iff csp a _).mp hvaru).1
        have hkf : hasKey a (selectVar csp u us) = false :=
          ((mem_unassigned_iff csp a _).mp hvaru).2
        have hkb : hasKey b (selectVar csp u us) = true := by
          apply (hasKey_iff_mem_keys b _).mpr
          have hcomp := hasKey_of_complete csp b hvars hvb hblen _ hvarv
          exact (hasKey_iff_mem_keys b _).mp hcomp
        obtain ⟨x, hx⟩ := Option.isSome_iff_exists.mp hkb
        have hxb : (selectVar csp u us, x) ∈ b := alookup_some_mem b _ x hx
        have hxd : x ∈ csp.domainOf (selectVar csp u us) := hvb.valsDom _ hxb
        have hagn : Agrees (a ++ [(selectVar csp u us, x)]) b := by
          intro v hvk
          by_cases hk : hasKey a v = true
          · rw [alookup_append_of_hasKey a _ v hk]
            exact hag v hk
          · rw [Bool.not_eq_true] at hk
            rw [alookup_append_of_not_hasKey a _ v hk]
            rw [hasKey, alookup_append_of_not_hasKey a _ v hk] at hvk
            by_cases hvvar : selectVar csp u us = v
            · subst hvvar
              simp only [alookup, if_pos rfl]
              exact hx
            · simp only [alookup, if_neg hvvar] at hvk
              simp at hvk
        have hconsn : csp.consistent (a ++ [(selectVar csp u us, x)]) = true :=
          consistent_of_agrees csp _ b hagn hbcons
        have hvn : Valid csp (a ++ [(selectVar csp u us, x)]) :=
          valid_extend csp a _ x hva hvaru hxd
        have hfueln : (unassignedList csp (a ++ [(selectVar csp u us, x)])).length < fuel := by
          rw [unassigned_append_single]
          have := length_filter_ne_lt (selectVar csp u us) (unassignedList csp a) hvaru
          omega
        have hmem := ih (a ++ [(selectVar csp u us, x)]) b hvn hfueln hvb hblen hbcons hagn
        rw [List.map_flatMap, List.mem_flatMap]
        refine ⟨x, ?_, ?_⟩
        · unfold sortedDomain
          rw [Finset.mem_sort]
          exact hxd
        · rw [dictSet_of_not_hasKey a _ x hkf, if_pos hconsn]
          exact hmem

/-! ## Brute-force characterization -/

theorem alookup_eq_none_iff {β : Type} (l : List (Var × β)) (v : Var) :
    alookup l v = none ↔ v ∉ l.map Prod.fst := by
  induction l with
  | nil => simp [alookup]
  | cons p rest ih =>
    obtain ⟨k, y⟩ := p
    by_cases hk : k = v
    · simp [alookup, hk]
    · simp [alookup, hk, ih, Ne.symm hk]

theorem alookup_tabulate (b : Assignment) (doms : List (Var × Finset Nat)) (v : Var) :
    alookup (tabulate b doms) v = (alookup doms v).map (fun _ => (alookup b v).getD 0) := by
  induction doms with
  | nil => rfl
  | cons q rest ih =>
    obtain ⟨k, y⟩ := q
    by_cases hk : k = v
    · subst hk
      simp [tabulate, alookup]
    · simp only [tabulate, List.map_cons, alookup, if_neg hk]
      exact ih

theorem mem_allAssignments (doms : List (Var × Finset Nat)) (b : Assignment) :
    b ∈ allAssignments doms ↔
      List.Forall₂ (fun (p : Var × Nat) (q : Var × Finset Nat) => p.1 = q.1 ∧ p.2 ∈ q.2)
        b doms := by
  induction doms generalizing b with
  | nil =>
    simp only [allAssignments, List.mem_singleton, List.forall₂_nil_right_iff]
  | cons q rest ih =>
    obtain ⟨v, d⟩ := q
    simp only [allAssignments, List.mem_flatMap, List.mem_map]
    constructor
    · rintro ⟨x, hx, b1, hb1, rfl⟩
      rw [Finset.mem_sort] at hx
      exact List.Forall₂.cons ⟨rfl, hx⟩ ((ih b1).mp hb1)
    · intro h
      cases b with
      | nil => exact absurd h (by simp)
      | cons p bs =>
        obtain ⟨pv, px⟩ := p
        rw [List.forall₂_cons] at h
        obtain ⟨⟨h1, h2⟩, h3⟩ := h
        dsimp only at h1 h2
        subst h1
        exact ⟨px, (Finset.mem_sort _).mpr h2, bs, (ih bs).mpr h3, rfl⟩

theorem forall2_keys (b : Assignment) (l : List (Var × Finset Nat))
    (h : List.Forall₂ (fun (p : Var × Nat) (q : Var × Finset Nat) => p.1 = q.1 ∧ p.2 ∈ q.2) b l) :
    b.map Prod.fst = l.map Prod.fst := by
  induction h with
  | nil => rfl
  | cons hpq _ ih =>
    simp only [List.map_cons, ih, List.cons.injEq, and_true]
    exact hpq.1

theorem forall2_mem_dom (b : Assignment) (l : List (Var × Finset Nat))
    (h : List.Forall₂ (fun (p : Var × Nat) (q : Var × Finset Nat) => p.1 = q.1 ∧ p.2 ∈ q.2) b l) :
    ∀ p ∈ b, ∃ q ∈ l, p.1 = q.1 ∧ p.2 ∈ q.2 := by
  induction h with
  | nil => simp
  | cons hpq _ ih =>
    intro p hp
    rcases List.mem_cons.mp hp with h1 | h1
    · exact ⟨_, List.mem_cons_self _ _, h1 ▸ hpq⟩
    · obtain ⟨q, hq, hqq⟩ := ih p h1
      exact ⟨q, List.mem_cons_of_mem _ hq, hqq⟩

theorem unassigned_empty (csp : NaryCSP) : unassignedList csp [] = csp.vars := by
  unfold unassignedList
  apply List.filter_eq_self.mpr
  intro v _
  rfl

/-- The facts soundness delivers about every solution emitted from the empty
assignment over a model with at least one variable. -/
theorem emitted_facts (csp : NaryCSP) (hne : csp.domains ≠ []) (b : Assignment)
    (hb : b ∈ backtracking csp []) :
    Valid csp b ∧ b.length = csp.domains.length ∧ csp.consistent b = true := by
  obtain ⟨h1, h2, _, h4⟩ := btAux_sound csp _ [] (valid_empty csp) b hb
  refine ⟨h1, h2, ?_⟩
  rcases h4 with h | h
  · exact h
  · subst h
    rw [List.length_nil] at h2
    exact absurd (List.length_eq_zero.mp h2.symm) hne

/-- Every emitted solution appears, up to the canonical dictionary view, in
the brute-force enumeration. -/
theorem emitted_canon_mem_bruteforce (csp : NaryCSP) (hvars : csp.vars.Nodup)
    (hne : csp.domains ≠ []) (b : Assignment) (hb : b ∈ backtracking csp []) :
    canon csp b ∈ (bruteForce csp).map (canon csp) := by
  obtain ⟨hvb, hblen, hbcons⟩ := emitted_facts csp hne b hb
  have hcomp := hasKey_of_complete csp b hvars hvb hblen
  have hlook : ∀ v, alookup (tabulate b csp.domains) v = alookup b v := by
    intro v
    rw [alookup_tabulate]
    by_cases hv : v ∈ csp.vars
    · obtain ⟨x, hx⟩ := Option.isSome_iff_exists.mp (hcomp v hv)
      cases hd : alookup csp.domains v with
      | none =>
        rw [alookup_eq_none_iff] at hd
        exact absurd hv hd
      | some d =>
        simp [hx]
    · have hd : alookup csp.domains v = none := (alookup_eq_none_iff _ v).mpr hv
      have hbv : alookup b v = none := by
        apply (alookup_eq_none_iff b v).mpr
        intro hmem
        obtain ⟨p, hp, hpv⟩ := List.mem_map.mp hmem
        exact hv (hpv ▸ hvb.keysSub p hp)
      simp [hd, hbv]
  have hrepmem : tabulate b csp.domains ∈ allAssignments csp.domains := by
    rw [mem_allAssignments]
    unfold tabulate
    rw [List.forall₂_map_left_iff]
    apply List.forall₂_same.mpr
    intro q hq
    refine ⟨rfl, ?_⟩
    show (alookup b q.1).getD 0 ∈ q.2
    have hqv : q.1 ∈ csp.vars := List.mem_map.mpr ⟨q, hq, rfl⟩
    obtain ⟨x, hx⟩ := Option.isSome_iff_exists.mp (hcomp q.1 hqv)
    have hxd : x ∈ csp.domainOf q.1 := hvb.valsDom _ (alookup_some_mem b q.1 x hx)
    have hdq : alookup csp.domains q.1 = some q.2 :=
      alookup_eq_some_of_mem_of_nodup csp.domains q hvars hq
    rw [hx]
    simp only [Option.getD_some]
    unfold NaryCSP.domainOf at hxd
    rw [hdq] at hxd
    simpa using hxd
  have hrepcons : csp.consistent (tabulate b csp.domains) = true := by
    rw [consistent_congr csp _ b hlook]
    exact hbcons
  refine List.mem_map.mpr ⟨_, List.mem_filter.mpr ⟨hrepmem, hrepcons⟩, ?_⟩
  rw [canon_eq_iff]
  intro v _
  exact hlook v

/-- Every brute-force solution appears, up to the canonical dictionary view,
in the emitted enumeration. -/
theorem bruteforce_canon_mem_emitted (csp : NaryCSP) (hvars : csp.vars.Nodup)
    (b : Assignment) (hb : b ∈ bruteForce csp) :
    canon csp b ∈ (backtracking csp []).map (canon csp) := by
  obtain ⟨hball, hbcons⟩ := List.mem_filter.mp hb
  rw [mem_allAssignments] at hball
  have hkeys : b.map Prod.fst = csp.vars := forall2_keys b csp.domains hball
  have hvb : Valid csp b := by
    refine ⟨hkeys ▸ hvars, ?_, ?_⟩
    · intro p hp
      rw [← hkeys]
      exact List.mem_map.mpr ⟨p, hp, rfl⟩
    · intro p hp
      obtain ⟨q, hq, hq1, hq2⟩ := forall2_mem_dom b csp.domains hball p hp
      have hdq : alookup csp.domains q.1 = some q.2 :=
        alookup_eq_some_of_mem_of_nodup csp.domains q hvars hq
      unfold NaryCSP.domainOf
      rw [hq1, hdq]
      simpa using hq2
  have hblen : b.length = csp.domains.length := hball.length_eq
  apply btAux_complete_mem csp hvars (csp.domains.length + 1) [] b (valid_empty csp)
  · rw [unassigned_empty]
    have : csp.vars.length = csp.domains.length := List.length_map _ _
    omega
  · exact hvb
  · exact hblen
  · exact hbcons
  · intro v hv
    simp [hasKey, alookup] at hv

/-! ## Concrete evaluation helpers -/

theorem sort01 : ({0, 1} : Finset Nat).sort (· ≤ ·) = [0, 1] := by
  have h2 : (0 : Nat) ∉ ({1} : Finset Nat) := by simp
  have h1 : ∀ b ∈ ({1} : Finset Nat), (0 : Nat) ≤ b := fun b _ => Nat.zero_le b
  calc ({0, 1} : Finset Nat).sort (· ≤ ·)
      = (insert 0 {1} : Finset Nat).sort (· ≤ ·) := rfl
    _ = 0 :: ({1} : Finset Nat).sort (· ≤ ·) := Finset.sort_insert _ h1 h2
    _ = [0, 1] := by rw [Finset.sort_singleton]

theorem backtracking_cspAB_eval :
    backtracking cspAB [] = [[("A", 0), ("B", 1)], [("A", 1), ("B", 0)]] := by
  have hsA : sortedDomain cspAB (selectVar cspAB "A" ["B"]) = [0, 1] := sort01
  have hsB : sortedDomain cspAB (selectVar cspAB "B" []) = [0, 1] := sort01
  show backtrackingAux 3 cspAB [] = _
  rw [btAux_step 2 cspAB [] "A" ["B"] (by decide) rfl, hsA]
  simp only [List.flatMap_cons, List.flatMap_nil]
  rw [show dictSet [] (selectVar cspAB "A" ["B"]) 0 = [("A", 0)] from rfl]
  rw [show dictSet [] (selectVar cspAB "A" ["B"]) 1 = [("A", 1)] from rfl]
  rw [if_pos (by decide), if_pos (by decide)]
  show backtrackingAux 2 cspAB [("A", 0)] ++ (backtrackingAux 2 cspAB [("A", 1)] ++ []) = _
  have h0b : backtrackingAux 2 cspAB [("A", 0)] = [[("A", 0), ("B", 1)]] := by
    rw [btAux_step 1 cspAB [("A", 0)] "B" [] (by decide) rfl, hsB]
    decide
  have h1b : backtrackingAux 2 cspAB [("A", 1)] = [[("A", 1), ("B", 0)]] := by
    rw [btAux_step 1 cspAB [("A", 1)] "B" [] (by decide) rfl, hsB]
    decide
  rw [h0b, h1b]
  rfl

/-! ## Claim C1 -/

/-- C1 counterexample: for the model with no variables and one nullary,
always-false constraint, backtracking emits the empty assignment although the
brute-force enumeration filtered by the constraint predicates is empty, so
the emitted solution set is not the brute-force-filtered set for every
constraint model. -/
theorem C1_counterexample_degenerate :
    canon degenCSP [] ∈ (backtracking degenCSP []).map (canon degenCSP) ∧
      canon degenCSP [] ∉ (bruteForce degenCSP).map (canon degenCSP) := by
  decide

/-- C1 (amended): for every constraint model with distinct variable names and
at least one variable, the sequence emitted by backtracking from the empty
assignment contains no two identical complete assignments (identity taken as
Python dictionary equality, i.e. equality of the canonical views), and the
set of emitted assignments is exactly the brute-force-filtered set of all
complete assignments, again up to the canonical dictionary view. -/
theorem backtracking_enumerates_bruteforce (csp : NaryCSP)
    (hvars : csp.vars.Nodup) (hne : csp.domains ≠ []) :
    ((backtracking csp []).map (canon csp)).Nodup ∧
      ∀ m, m ∈ (backtracking csp []).map (canon csp) ↔
        m ∈ (bruteForce csp).map (canon csp) := by
  refine ⟨btAux_canon_nodup csp _ [] (valid_empty csp), ?_⟩
  intro m
  constructor
  · intro hm
    obtain ⟨b, hb, hcan⟩ := List.mem_map.mp hm
    exact hcan ▸ emitted_canon_mem_bruteforce csp hvars hne b hb
  · intro hm
    obtain ⟨b, hb, hcan⟩ := List.mem_map.mp hm
    exact hcan ▸ bruteforce_canon_mem_emitted csp hvars b hb

/-- C1 witness: the amended theorem applied to the concrete two-variable
scenario model of spec section 8. -/
theorem backtracking_enumerates_bruteforce_witness :
    ((backtracking cspAB []).map (canon cspAB)).Nodup :=
  (backtracking_enumerates_bruteforce cspAB (by decide) (by decide)).1

/-! ## Claim C2 -/

/-- C2 counterexample: for the model with no variables and one nullary,
always-false constraint, backtracking emits the (vacuously complete) empty
assignment, yet the consistency check on that emitted assignment returns
false: the nullary constraint has its full scope bound and is nevertheless
violated. -/
theorem C2_counterexample_degenerate :
    [] ∈ backtracking degenCSP [] ∧ degenCSP.consistent [] = false := by
  decide

/-- C2 (amended): for every constraint model with distinct variable names and
at least one variable, every assignment emitted by backtracking from the
empty assignment is complete (it binds every variable of the model), the
consistency check returns true on it, and no constraint whose scope is fully
bound is skipped: every such constraint evaluates to true on the bound values
of its scope. -/
theorem backtracking_emits_consistent (csp : NaryCSP) (hvars : csp.vars.Nodup)
    (hne : csp.domains ≠ []) (sol : Assignment) (hsol : sol ∈ backtracking csp []) :
    sol.length = csp.domains.length ∧ (∀ v ∈ csp.vars, hasKey sol v = true) ∧
      csp.consistent sol = true ∧
      ∀ c ∈ csp.constraints, c.covered sol = true → c.holds sol = true := by
  obtain ⟨hv, hlen, hcons⟩ := emitted_facts csp hne sol hsol
  refine ⟨hlen, hasKey_of_complete csp sol hvars hv hlen, hcons, ?_⟩
  intro c hc hcov
  unfold NaryCSP.consistent at hcons
  have := List.all_eq_true.mp hcons c hc
  rw [hcov] at this
  simpa using this

/-- C2 witness: the amended theorem applied to the first solution emitted for
the two-variable scenario model. -/
theorem backtracking_emits_consistent_witness :
    cspAB.consistent [("A", 0), ("B", 1)] = true :=
  (backtracking_emits_consistent cspAB (by decide) (by decide) [("A", 0), ("B", 1)]
    (by rw [backtracking_cspAB_eval]; decide)).2.2.1

/-! ## Objective lemmas -/

theorem objective_ge_neg_one (sol : Assignment) : (-1 : ℚ) ≤ objective sol := by
  unfold objective
  by_cases h : 0 < numCorridors sol
  · rw [if_pos h]
    have h1 : (0 : ℚ) ≤ (totalUnits sol : ℚ) / (numCorridors sol : ℚ) :=
      div_nonneg (Nat.cast_nonneg _) (Nat.cast_nonneg _)
    linarith
  · rw [if_neg h]

/-- C4: for every assignment, the objective is the total units of selected
orders divided by the number of corridors used when at least one corridor is
selected, is exactly -1 when no corridor is selected, and is everywhere
defined and at least -1, hence comparable across all assignments including
degenerate ones. -/
theorem objective_defined_everywhere (sol : Assignment) :
    (numCorridors sol = 0 → objective sol = -1) ∧
      (0 < numCorridors sol →
        objective sol * (numCorridors sol : ℚ) = (totalUnits sol : ℚ)) ∧
      (-1 : ℚ) ≤ objective sol := by
  refine ⟨?_, ?_, objective_ge_neg_one sol⟩
  · intro h
    unfold objective
    rw [if_neg (by omega)]
  · intro h
    unfold objective
    rw [if_pos h]
    exact div_mul_cancel₀ _ (Nat.cast_ne_zero.mpr (by omega))

/-- C4 witness: the objective at the empty assignment (no corridor selected)
and at an assignment using one corridor. -/
theorem objective_defined_everywhere_witness :
    objective [] = -1 ∧
      objective [("Pedido1", 1), ("Corredor1", 1)] *
          ((numCorridors [("Pedido1", 1), ("Corredor1", 1)] : Nat) : ℚ) =
        ((totalUnits [("Pedido1", 1), ("Corredor1", 1)] : Nat) : ℚ) :=
  ⟨(objective_defined_everywhere []).1 rfl,
    (objective_defined_everywhere [("Pedido1", 1), ("Corredor1", 1)]).2.1 (by decide)⟩

/-! ## Selection-loop characterization -/

theorem getD_mem {α : Type} (l : List α) (n : Nat) (d : α) (h : n < l.length) :
    l.getD n d ∈ l := by
  induction l generalizing n with
  | nil => simp at h
  | cons x xs ih =>
    cases n with
    | zero => simp
    | succ m =>
      rw [List.getD_cons_succ]
      exact List.mem_cons_of_mem _ (ih m (by simpa using h))

theorem bestLoop_go (rest : List Assignment) :
    ∀ (idx : Int) (s : Assignment) (bi : Int),
      ∃ t, (bestLoop rest idx (some s, objective s, bi)).1 = some t ∧
        (bestLoop rest idx (some s, objective s, bi)).2.1 = objective t ∧
        ((t = s ∧ (bestLoop rest idx (some s, objective s, bi)).2.2 = bi ∧
            ∀ r ∈ rest, objective r < objective s) ∨
          (∃ j, j < rest.length ∧ t = rest.getD j [] ∧
            (bestLoop rest idx (some s, objective s, bi)).2.2 = idx + (j : Int) ∧
            objective s ≤ objective t ∧
            (∀ r ∈ rest, objective r ≤ objective t) ∧
            (∀ j2, j < j2 → j2 < rest.length →
              objective (rest.getD j2 []) < objective t))) := by
  induction rest with
  | nil =>
    intro idx s bi
    exact ⟨s, rfl, rfl, Or.inl ⟨rfl, rfl, by simp⟩⟩
  | cons r rs ih =>
    intro idx s bi
    rw [bestLoop]
    by_cases hc : objective s ≤ objective r
    · rw [if_pos hc]
      obtain ⟨t, h1, h2, h3⟩ := ih (idx + 1) r idx
      refine ⟨t, h1, h2, Or.inr ?_⟩
      rcases h3 with ⟨ht, hbi, hall⟩ | ⟨j, hj, ht, hbi, hle, hall, hafter⟩
      · refine ⟨0, by simp, by simpa using ht, by simpa using hbi, ht ▸ hc, ?_, ?_⟩
        · intro x hx
          rcases List.mem_cons.mp hx with h | h
          · rw [h, ht]
          · rw [ht]
            exact le_of_lt (hall x h)
        · intro j2 hj2 hj2len
          cases j2 with
          | zero => omega
          | succ j3 =>
            rw [List.getD_cons_succ, ht]
            exact hall _ (getD_mem rs j3 [] (by simpa using hj2len))
      · refine ⟨j + 1, by simpa using hj, by simpa using ht, ?_, le_trans hc hle, ?_, ?_⟩
        · rw [hbi]
          push_cast
          ring
        · intro x hx
          rcases List.mem_cons.mp hx with h | h
          · exact h ▸ hle
          · exact hall x h
        · intro j2 hj2 hj2len
          cases j2 with
          | zero => omega
          | succ j3 =>
            rw [List.getD_cons_succ]
            exact hafter j3 (by omega) (by simpa using hj2len)
    · rw [if_neg hc]
      obtain ⟨t, h1, h2, h3⟩ := ih (idx + 1) s bi
      refine ⟨t, h1, h2, ?_⟩
      rcases h3 with ⟨ht, hbi, hall⟩ | ⟨j, hj, ht, hbi, hle, hall, hafter⟩
      · refine Or.inl ⟨ht, hbi, ?_⟩
        intro x hx
        rcases List.mem_cons.mp hx with h | h
        · exact h ▸ lt_of_not_le hc
        · exact hall x h
      · refine Or.inr ⟨j + 1, by simpa using hj, by simpa using ht, ?_, hle, ?_, ?_⟩
        · rw [hbi]
          push_cast
          ring
        · intro x hx
          rcases List.mem_cons.mp hx with h | h
          · exact h ▸ le_trans (le_of_lt (lt_of_not_le hc)) hle
          · exact hall x h
        · intro j2 hj2 hj2len
          cases j2 with
          | zero => omega
          | succ j3 =>
            rw [List.getD_cons_succ]
            exact hafter j3 (by omega) (by simpa using hj2len)

theorem selectBest_spec (sols : List Assignment) (h : sols ≠ []) :
    ∃ k, k < sols.length ∧
      (selectBest sols).1 = some (sols.getD k []) ∧
      (selectBest sols).2.1 = objective (sols.getD k []) ∧
      (selectBest sols).2.2 = (k : Int) + 1 ∧
      (∀ j, j < sols.length → objective (sols.getD j []) ≤ objective (sols.getD k [])) ∧
      (∀ j, k < j → j < sols.length →
        objective (sols.getD j []) < objective (sols.getD k [])) := by
  cases sols with
  | nil => exact absurd rfl h
  | cons s rest =>
    have hstep : selectBest (s :: rest) = bestLoop rest 2 (some s, objective s, 1) := by
      unfold selectBest
      rw [bestLoop, if_pos (objective_ge_neg_one s)]
      norm_num
    obtain ⟨t, h1, h2, h3⟩ := bestLoop_go rest 2 s 1
    rcases h3 with ⟨ht, hbi, hall⟩ | ⟨j, hj, ht, hbi, hle, hall, hafter⟩
    · refine ⟨0, by simp, ?_, ?_, ?_, ?_, ?_⟩
      · rw [hstep, h1, ht]
        rfl
      · rw [hstep, h2, ht]
        rfl
      · rw [hstep, hbi]
        rfl
      · intro j hjlen
        cases j with
        | zero => exact le_refl _
        | succ j3 =>
          rw [List.getD_cons_succ, List.getD_cons_zero]
          exact le_of_lt (ht ▸ hall _ (getD_mem rest j3 [] (by simpa using hjlen)))
      · intro j hj0 hjlen
        cases j with
        | zero => omega
        | succ j3 =>
          rw [List.getD_cons_succ, List.getD_cons_zero]
          exact ht ▸ hall _ (getD_mem rest j3 [] (by simpa using hjlen))
    · refine ⟨j + 1, by simpa using hj, ?_, ?_, ?_, ?_, ?_⟩
      · rw [hstep, h1, ht]
        rw [List.getD_cons_succ]
      · rw [hstep, h2, ht]
        rw [List.getD_cons_succ]
      · rw [hstep, hbi]
        push_cast
        ring
      · intro j2 hjlen
        cases j2 with
        | zero =>
          rw [List.getD_cons_succ, List.getD_cons_zero]
          exact ht ▸ hle
        | succ j3 =>
          rw [List.getD_cons_succ, List.getD_cons_succ, ← ht]
          rcases Nat.lt_or_ge j3 rest.length with hlt | hge
          · exact ht ▸ hall _ (getD_mem rest j3 [] hlt)
          · exfalso
            simp only [List.length_cons] at hjlen
            omega
      · intro j2 hj2 hjlen
        cases j2 with
        | zero => omega
        | succ j3 =>
          rw [List.getD_cons_succ, List.getD_cons_succ, ← ht]
          exact ht ▸ hafter j3 (by omega) (by simpa using hjlen)

/-! ## Claim C5 -/

/-- C5 counterexample: two distinct complete assignments over the instance
variables (every Pedido and Corredor key bound, as in an emitted solution)
with equal objective value; the selection stage, whose comparison is
non-strict, returns the second (the last encountered), not the
first-encountered one. -/
theorem C5_counterexample_tie :
    tieWaveA.map Prod.fst = csp_instance.vars ∧
      tieWaveB.map Prod.fst = csp_instance.vars ∧
      objective tieWaveA = objective tieWaveB ∧
      tieWaveA ≠ tieWaveB ∧
      (selectBest [tieWaveA, tieWaveB]).1 = some tieWaveB := by
  have ho1 : objective tieWaveA = 4 := by
    unfold objective
    rw [show numCorridors tieWaveA = 1 from rfl]
    rw [show totalUnits tieWaveA = 4 from rfl]
    norm_num
  have ho2 : objective tieWaveB = 4 := by
    unfold objective
    rw [show numCorridors tieWaveB = 1 from rfl]
    rw [show totalUnits tieWaveB = 4 from rfl]
    norm_num
  refine ⟨by decide, by decide, by rw [ho1, ho2], by decide, ?_⟩
  unfold selectBest
  rw [bestLoop, if_pos (by rw [ho1]; norm_num)]
  rw [bestLoop, if_pos (by rw [ho1, ho2])]
  rw [bestLoop]

/-- C5 (amended): the selection stage picks, from the emitted sequence, a
solution whose objective value is maximal over all emitted solutions; when
several solutions tie at the maximal value it keeps the last-encountered one
in enumeration order (every solution after the returned index is strictly
below the maximum). -/
theorem selectBest_attains_max_keeps_last (sols : List Assignment) (h : sols ≠ []) :
    ∃ k, k < sols.length ∧ (selectBest sols).1 = some (sols.getD k []) ∧
      (∀ j, j < sols.length → objective (sols.getD j []) ≤ objective (sols.getD k [])) ∧
      (∀ j, k < j → j < sols.length →
        objective (sols.getD j []) < objective (sols.getD k [])) := by
  obtain ⟨k, h1, h2, _, _, h5, h6⟩ := selectBest_spec sols h
  exact ⟨k, h1, h2, h5, h6⟩

/-- C5 witness: the amended theorem applied to a one-element list. -/
theorem selectBest_attains_max_keeps_last_witness :
    (selectBest [[("Pedido1", 1), ("Corredor1", 1)]]).1 =
      some [("Pedido1", 1), ("Corredor1", 1)] := by
  obtain ⟨k, hk, h2, _, _⟩ :=
    selectBest_attains_max_keeps_last [[("Pedido1", 1), ("Corredor1", 1)]] (by simp)
  have hk0 : k = 0 := by simpa using hk
  subst hk0
  simpa using h2

/-! ## Claim C10 -/

/-- C10: when the emitted solution list is nonempty the selection loop always
replaces its sentinel (because every objective value is at least -1 and the
comparison is non-strict, the first iteration updates the state), so the
final best solution is an element of the list attaining the maximal
objective, and the final best index is its 1-based position. -/
theorem selectBest_replaces_sentinel (sols : List Assignment) (h : sols ≠ []) :
    (selectBest sols).1 ≠ none ∧
      ∃ k, k < sols.length ∧ (selectBest sols).1 = some (sols.getD k []) ∧
        (selectBest sols).2.2 = (k : Int) + 1 ∧
        ∀ j, j < sols.length → objective (sols.getD j []) ≤ objective (sols.getD k []) := by
  obtain ⟨k, h1, h2, h3, h4, h5, h6⟩ := selectBest_spec sols h
  refine ⟨by rw [h2]; simp, k, h1, h2, h4, h5⟩

/-- C10 witness: the theorem applied to a concrete one-element list. -/
theorem selectBest_replaces_sentinel_witness :
    (selectBest [[("Pedido1", 1), ("Corredor1", 1)]]).1 ≠ none :=
  (selectBest_replaces_sentinel [[("Pedido1", 1), ("Corredor1", 1)]] (by simp)).1

/-! ## Claim C7 -/

/-- C7: at every search step with an incomplete assignment, the selected
variable is an unassigned variable of minimal remaining domain size and the
first such variable in the declaration (insertion) order of the domain
mapping, and the candidate values of the selected variable are tried in
ascending sorted order; the step unfolds to exactly the concatenation of the
branches over that sorted value list, so the emitted order is a function of
the model alone. -/
theorem selection_policy (fuel : Nat) (csp : NaryCSP) (a : Assignment) (u : Var) (us : List Var)
    (h1 : a.length ≠ csp.domains.length) (h2 : unassignedList csp a = u :: us) :
    selectVar csp u us ∈ unassignedList csp a ∧
      (∀ w ∈ unassignedList csp a,
        (csp.domainOf (selectVar csp u us)).card ≤ (csp.domainOf w).card) ∧
      (∃ l1 l2, unassignedList csp a = l1 ++ selectVar csp u us :: l2 ∧
        ∀ w ∈ l1, (csp.domainOf (selectVar csp u us)).card < (csp.domainOf w).card) ∧
      List.Sorted (· ≤ ·) (sortedDomain csp (selectVar csp u us)) ∧
      backtrackingAux (fuel + 1) csp a =
        (sortedDomain csp (selectVar csp u us)).flatMap (fun value =>
          if csp.consistent (dictSet a (selectVar csp u us) value) = true then
            backtrackingAux fuel csp (dictSet a (selectVar csp u us) value)
          else []) :=
  ⟨by rw [h2]; exact pyMinAux_mem (fun v => (csp.domainOf v).card) u us,
    by rw [h2]; exact pyMinAux_le (fun v => (csp.domainOf v).card) u us,
    by rw [h2]; exact pyMinAux_first (fun v => (csp.domainOf v).card) u us,
    Finset.sort_sorted _ _,
    btAux_step fuel csp a u us h1 h2⟩

/-- C7 witness: the selection policy applied to the first step of the search
on the two-variable scenario model. -/
theorem selection_policy_witness :
    selectVar cspAB "A" ["B"] ∈ unassignedList cspAB [] :=
  (selection_policy 2 cspAB [] "A" ["B"] (by decide) rfl).1

/-! ## Claim C8 -/

/-- C8 (code bug): for an unsatisfiable model the search emits the valid
zero-length sequence, the selection loop leaves the sentinel (None, -1, -1)
untouched, and the final reporting call print_solution(best_solution,
best_index) then subscripts None, which raises TypeError in Python, instead
of completing the report as a non-fatal outcome. -/
theorem no_solution_report_raises :
    backtracking unsatCSP [] = [] ∧
      (selectBest (backtracking unsatCSP [])).1 = none ∧
      print_solution (selectBest (backtracking unsatCSP [])).1
          (selectBest (backtracking unsatCSP [])).2.2 =
        Except.error "TypeError: NoneType object is not subscriptable" := by
  have heval : backtracking unsatCSP [] = [] := by
    show backtrackingAux 2 unsatCSP [] = []
    rw [btAux_step 1 unsatCSP [] "X" [] (by decide) rfl]
    rw [show sortedDomain unsatCSP (selectVar unsatCSP "X" []) = [0, 1] from sort01]
    decide
  refine ⟨heval, ?_, ?_⟩
  · rw [heval]
    rfl
  · rw [heval]
    rfl

theorem getD_concat_length {α : Type} (l : List α) (a d : α) :
    (l ++ [a]).getD l.length d = a := by
  induction l with
  | nil => rfl
  | cons x xs ih => simp [ih]

theorem set_append_length {α : Type} (l : List α) (a b : α) :
    (l ++ [a]).set l.length b = l ++ [b] := by
  induction l with
  | nil => rfl
  | cons x xs ih =>
    show x :: ((xs ++ [a]).set xs.length b) = x :: (xs ++ [b])
    rw [ih]

theorem alloc_setKey_eq (h : DictHeap) (r : Nat) (var : Var) (value : Nat) :
    ((h.alloc (h.get r)).2).setKey (h.alloc (h.get r)).1 var value =
      childHeap h r var value := by
  unfold DictHeap.alloc DictHeap.setKey childHeap DictHeap.get
  dsimp only
  rw [getD_concat_length, set_append_length]

theorem get_childHeap_fresh (h : DictHeap) (r : Nat) (var : Var) (value : Nat) :
    (childHeap h r var value).get h.store.length = dictSet (h.get r) var value := by
  unfold childHeap DictHeap.get
  exact getD_concat_length _ _ _

theorem get_childHeap_old (h : DictHeap) (r q : Nat) (var : Var) (value : Nat)
    (hq : q < h.store.length) : (childHeap h r var value).get q = h.get q := by
  unfold childHeap DictHeap.get
  exact List.getD_append _ _ _ q hq

theorem btLoopH_nil (fuel : Nat) (csp : NaryCSP) (r : Nat) (var : Var) (h : DictHeap) :
    btLoopH fuel csp r var [] h = ([], h) := by
  rw [btLoopH]

theorem btLoopH_cons (fuel : Nat) (csp : NaryCSP) (r : Nat) (var : Var) (value : Nat)
    (rest : List Nat) (h : DictHeap) :
    btLoopH fuel csp r var (value :: rest) h =
      if csp.consistent ((childHeap h r var value).get h.store.length) = true then
        ((backtrackingH fuel csp h.store.length (childHeap h r var value)).1 ++
            (btLoopH fuel csp r var rest
              (backtrackingH fuel csp h.store.length (childHeap h r var value)).2).1,
          (btLoopH fuel csp r var rest
            (backtrackingH fuel csp h.store.length (childHeap h r var value)).2).2)
      else btLoopH fuel csp r var rest (childHeap h r var value) := by
  rw [btLoopH]
  dsimp only
  rw [alloc_setKey_eq]
  rfl

theorem btH_zero (csp : NaryCSP) (r : Nat) (h : DictHeap) :
    backtrackingH 0 csp r h = ([], h) := by
  rw [backtrackingH]

theorem btH_complete (fuel : Nat) (csp : NaryCSP) (r : Nat) (h : DictHeap)
    (hl : (h.get r).length = csp.domains.length) :
    backtrackingH (fuel + 1) csp r h = ([h.get r], h) := by
  rw [backtrackingH, if_pos hl]

theorem btH_stuck (fuel : Nat) (csp : NaryCSP) (r : Nat) (h : DictHeap)
    (hl : (h.get r).length ≠ csp.domains.length)
    (hul : unassignedList csp (h.get r) = []) :
    backtrackingH (fuel + 1) csp r h = ([], h) := by
  rw [backtrackingH, if_neg hl, hul]

theorem btH_step (fuel : Nat) (csp : NaryCSP) (r : Nat) (h : DictHeap) (u : Var)
    (us : List Var) (hl : (h.get r).length ≠ csp.domains.length)
    (hul : unassignedList csp (h.get r) = u :: us) :
    backtrackingH (fuel + 1) csp r h =
      btLoopH fuel csp r (selectVar csp u us)
        (sortedDomain csp (selectVar csp u us)) h := by
  rw [backtrackingH, if_neg hl, hul]

/-! ## Frame property: the search never mutates pre-existing objects -/

theorem btLoopH_frame (fuel : Nat)
    (IH : ∀ csp r h, ∃ ext, (backtrackingH fuel csp r h).2.store = h.store ++ ext) :
    ∀ (values : List Nat) (csp : NaryCSP) (r : Nat) (var : Var) (h : DictHeap),
      ∃ ext, (btLoopH fuel csp r var values h).2.store = h.store ++ ext := by
  intro values
  induction values with
  | nil =>
    intro csp r var h
    rw [btLoopH_nil]
    exact ⟨[], by simp⟩
  | cons value rest ihv =>
    intro csp r var h
    rw [btLoopH_cons]
    by_cases hc : csp.consistent ((childHeap h r var value).get h.store.length) = true
    · rw [if_pos hc]
      obtain ⟨ext1, he1⟩ := IH csp h.store.length (childHeap h r var value)
      obtain ⟨ext2, he2⟩ :=
        ihv csp r var (backtrackingH fuel csp h.store.length (childHeap h r var value)).2
      refine ⟨dictSet (h.get r) var value :: (ext1 ++ ext2), ?_⟩
      show (btLoopH fuel csp r var rest
          (backtrackingH fuel csp h.store.length (childHeap h r var value)).2).2.store = _
      rw [he2, he1]
      show (childHeap h r var value).store ++ ext1 ++ ext2 = _
      unfold childHeap
      simp
    · rw [if_neg hc]
      obtain ⟨ext, he⟩ := ihv csp r var (childHeap h r var value)
      refine ⟨dictSet (h.get r) var value :: ext, ?_⟩
      rw [he]
      unfold childHeap
      simp

theorem backtrackingH_frame :
    ∀ (fuel : Nat) (csp : NaryCSP) (r : Nat) (h : DictHeap),
      ∃ ext, (backtrackingH fuel csp r h).2.store = h.store ++ ext := by
  intro fuel
  induction fuel with
  | zero =>
    intro csp r h
    rw [btH_zero]
    exact ⟨[], by simp⟩
  | succ fuel ih =>
    intro csp r h
    by_cases hl : (h.get r).length = csp.domains.length
    · rw [btH_complete fuel csp r h hl]
      exact ⟨[], by simp⟩
    · cases hul : unassignedList csp (h.get r) with
      | nil =>
        rw [btH_stuck fuel csp r h hl hul]
        exact ⟨[], by simp⟩
      | cons u us =>
        rw [btH_step fuel csp r h u us hl hul]
        exact btLoopH_frame fuel ih _ csp r _ h

/-! ## Refinement: the heap search computes the pure search -/

theorem btLoopH_fst (fuel : Nat)
    (IH : ∀ csp r h, r < h.store.length →
      (backtrackingH fuel csp r h).1 = backtrackingAux fuel csp (h.get r)) :
    ∀ (values : List Nat) (csp : NaryCSP) (r : Nat) (var : Var) (h : DictHeap),
      r < h.store.length →
      (btLoopH fuel csp r var values h).1 =
        values.flatMap (fun value =>
          if csp.consistent (dictSet (h.get r) var value) = true then
            backtrackingAux fuel csp (dictSet (h.get r) var value)
          else []) := by
  intro values
  induction values with
  | nil =>
    intro csp r var h _
    rw [btLoopH_nil]
    rfl
  | cons value rest ihv =>
    intro csp r var h hr
    rw [btLoopH_cons, get_childHeap_fresh, List.flatMap_cons]
    by_cases hc : csp.consistent (dictSet (h.get r) var value) = true
    · rw [if_pos hc, if_pos hc]
      have hrc : h.store.length < (childHeap h r var value).store.length := by
        unfold childHeap
        simp
      have h1 : (backtrackingH fuel csp h.store.length (childHeap h r var value)).1 =
          backtrackingAux fuel csp (dictSet (h.get r) var value) := by
        rw [IH csp h.store.length (childHeap h r var value) hrc, get_childHeap_fresh]
      obtain ⟨ext, he⟩ := backtrackingH_frame fuel csp h.store.length (childHeap h r var value)
      have hr3 : r <
          (backtrackingH fuel csp h.store.length (childHeap h r var value)).2.store.length := by
        rw [he]
        unfold childHeap at *
        simp only [DictHeap.store] at *
        rw [List.length_append, List.length_append]
        omega
      have hget3 : (backtrackingH fuel csp h.store.length (childHeap h r var value)).2.get r =
          h.get r := by
        unfold DictHeap.get
        rw [he]
        have h4 : r < (childHeap h r var value).store.length := by
          unfold childHeap
          simp only [List.length_append]
          omega
        rw [List.getD_append _ _ _ r h4]
        exact get_childHeap_old h r r var value hr
      have h2 := ihv csp r var
        (backtrackingH fuel csp h.store.length (childHeap h r var value)).2 hr3
      rw [hget3] at h2
      show (backtrackingH fuel csp h.store.length (childHeap h r var value)).1 ++
          (btLoopH fuel csp r var rest
            (backtrackingH fuel csp h.store.length (childHeap h r var value)).2).1 = _
      rw [h1, h2]
    · rw [if_neg hc, if_neg hc]
      have h2 := ihv csp r var (childHeap h r var value) (by unfold childHeap; simp; omega)
      rw [get_childHeap_old h r r var value hr] at h2
      rw [h2]
      simp

theorem backtrackingH_fst :
    ∀ (fuel : Nat) (csp : NaryCSP) (r : Nat) (h : DictHeap), r < h.store.length →
      (backtrackingH fuel csp r h).1 = backtrackingAux fuel csp (h.get r) := by
  intro fuel
  induction fuel with
  | zero =>
    intro csp r h _
    rw [btH_zero, btAux_zero]
  | succ fuel ih =>
    intro csp r h hr
    by_cases hl : (h.get r).length = csp.domains.length
    · rw [btH_complete fuel csp r h hl, btAux_complete fuel csp _ hl]
    · cases hul : unassignedList csp (h.get r) with
      | nil => rw [btH_stuck fuel csp r h hl hul, btAux_stuck fuel csp _ hl hul]
      | cons u us =>
        rw [btH_step fuel csp r h u us hl hul, btAux_step fuel csp _ u us hl hul]
        exact btLoopH_fst fuel ih _ csp r _ h hr

/-! ## Claim C9 -/

/-- C9: backtracking never mutates the assignment object it receives as
argument (including the shared default empty mapping), nor any other
pre-existing dictionary object — every extension binds the new variable on a
fresh copy, so after any call each object that existed before the call holds
exactly the bindings it held before, and sibling branches cannot observe each
other's tentative bindings. -/
theorem backtracking_no_argument_mutation (fuel : Nat) (csp : NaryCSP) (r : Nat)
    (h : DictHeap) (q : Nat) (hq : q < h.store.length) :
    (backtrackingH fuel csp r h).2.get q = h.get q := by
  obtain ⟨ext, he⟩ := backtrackingH_frame fuel csp r h
  unfold DictHeap.get
  rw [he, List.getD_append _ _ _ q hq]

/-- C9 witness: a run over the two-variable scenario model leaves the shared
empty assignment object at address 0 unchanged. -/
theorem backtracking_no_argument_mutation_witness :
    (backtrackingH 3 cspAB 0 ⟨[[]]⟩).2.get 0 = DictHeap.get ⟨[[]]⟩ 0 :=
  backtracking_no_argument_mutation 3 cspAB 0 ⟨[[]]⟩ 0 (by decide)

/-! ## Claim C6 -/

/-- C6: the search is deterministic and restartable.  The sequence emitted by
a run at the address of an empty assignment object is the pure function
backtrackingAux of the model alone (so two independent invocations emit
identical sequences in identical order), and a second invocation at the same
address — the shared default-argument object — on the heap left by the first
run emits exactly the first run's sequence, because the first run left that
object untouched. -/
theorem backtracking_deterministic_restartable (fuel : Nat) (csp : NaryCSP) (r : Nat)
    (h0 : DictHeap) (hr : r < h0.store.length) (he : h0.get r = []) :
    (backtrackingH fuel csp r h0).1 = backtrackingAux fuel csp [] ∧
      (backtrackingH fuel csp r (backtrackingH fuel csp r h0).2).1 =
        (backtrackingH fuel csp r h0).1 := by
  have h1 : (backtrackingH fuel csp r h0).1 = backtrackingAux fuel csp [] := by
    rw [backtrackingH_fst fuel csp r h0 hr, he]
  refine ⟨h1, ?_⟩
  obtain ⟨ext, hext⟩ := backtrackingH_frame fuel csp r h0
  have hr2 : r < (backtrackingH fuel csp r h0).2.store.length := by
    rw [hext, List.length_append]
    omega
  have he2 : h0.store.getD r [] = [] := he
  have hget2 : (backtrackingH fuel csp r h0).2.get r = [] := by
    unfold DictHeap.get
    rw [hext, List.getD_append _ _ _ r hr]
    exact he2
  rw [backtrackingH_fst fuel csp r _ hr2, hget2, h1]

/-- C6 witness: two consecutive runs over the two-variable scenario model,
sharing the default empty assignment object, emit the same sequence. -/
theorem backtracking_deterministic_restartable_witness :
    (backtrackingH 3 cspAB 0 (backtrackingH 3 cspAB 0 ⟨[[]]⟩).2).1 =
      (backtrackingH 3 cspAB 0 ⟨[[]]⟩).1 :=
  (backtracking_deterministic_restartable 3 cspAB 0 ⟨[[]]⟩ (by decide) rfl).2

/-- A sum over the indices selected by a zero-one selector equals the
selector-weighted sum over all indices. -/
theorem filter_map_sum_eq (g x : Nat → Nat) :
    ∀ l : List Nat, (∀ o ∈ l, x o = 0 ∨ x o = 1) →
      ((l.filter (fun o => decide (x o = 1))).map g).sum =
        (l.map (fun o => g o * x o)).sum := by
  intro l
  induction l with
  | nil => intro _; rfl
  | cons o os ih =>
    intro hb
    have hbo := hb o (List.mem_cons_self _ _)
    have htail := ih (fun a ha => hb a (List.mem_cons_of_mem _ ha))
    rw [List.filter_cons]
    rcases hbo with h0 | h1
    · rw [if_neg (by simp [h0])]
      rw [List.map_cons, List.sum_cons, h0]
      simp [htail]
    · rw [if_pos (by simp [h1])]
      rw [List.map_cons, List.sum_cons, List.map_cons, List.sum_cons, h1]
      rw [htail]
      ring

/-- C3: every solution emitted for the concrete problem instance has its
total collected units within LB = 5 and UB = 12 inclusive, and for every item
index below 5, the demand of the selected orders does not exceed the capacity
of the selected corridors. -/
theorem instance_solutions_feasible (sol : Assignment) (hsol : sol ∈ solutions) :
    (5 ≤ collectedUnits sol ∧ collectedUnits sol ≤ 12) ∧
      ∀ i, i < 5 → itemDemand i sol ≤ itemCapacity i sol := by
  obtain ⟨hvb, hblen, hbcons⟩ := emitted_facts csp_instance (by decide) sol hsol
  have hvars : csp_instance.vars.Nodup := by decide
  have hcomp := hasKey_of_complete csp_instance sol hvars hvb hblen
  have hallP : ∀ o ∈ List.range 5, pedidoName o ∈ csp_instance.vars := by decide
  have hallC : ∀ a ∈ List.range 5, corredorName a ∈ csp_instance.vars := by decide
  have hdomP : ∀ o ∈ List.range 5,
      csp_instance.domainOf (pedidoName o) = ({0, 1} : Finset Nat) := by decide
  have hdomC : ∀ a ∈ List.range 5,
      csp_instance.domainOf (corredorName a) = ({0, 1} : Finset Nat) := by decide
  have hbin : ∀ v : Var, v ∈ csp_instance.vars →
      csp_instance.domainOf v = ({0, 1} : Finset Nat) →
      (alookup sol v).getD 0 = 0 ∨ (alookup sol v).getD 0 = 1 := by
    intro v hv hdom
    obtain ⟨x, hx⟩ := Option.isSome_iff_exists.mp (hcomp v hv)
    have hxd := hvb.valsDom _ (alookup_some_mem sol v x hx)
    rw [hdom] at hxd
    rw [hx]
    simp only [Option.getD_some]
    simpa using hxd
  have hbinP : ∀ o ∈ List.range 5,
      (alookup sol (pedidoName o)).getD 0 = 0 ∨ (alookup sol (pedidoName o)).getD 0 = 1 :=
    fun o ho => hbin _ (hallP o ho) (hdomP o ho)
  have hbinC : ∀ a ∈ List.range 5,
      (alookup sol (corredorName a)).getD 0 = 0 ∨ (alookup sol (corredorName a)).getD 0 = 1 :=
    fun a ha => hbin _ (hallC a ha) (hdomC a ha)
  have hconsE : ∀ c ∈ instanceConstraints, (!(c.covered sol) || c.holds sol) = true := by
    have h := hbcons
    unfold NaryCSP.consistent at h
    exact List.all_eq_true.mp h
  have hkeyAll : ∀ v ∈ all_variables, hasKey sol v = true := by
    have hsub : ∀ w ∈ all_variables, w ∈ csp_instance.vars := by decide
    intro v hv
    exact hcomp v (hsub v hv)
  have hcov0 : Constraint.covered ⟨orders_variables, total_demand_constraint⟩ sol = true := by
    unfold Constraint.covered
    apply List.all_eq_true.mpr
    intro v hv
    exact hkeyAll v (List.mem_append.mpr (Or.inl hv))
  have hold0 : total_demand_constraint
      (orders_variables.map (fun v => (alookup sol v).getD 0)) = true := by
    have h := hconsE _ (List.mem_cons_self _ _)
    rw [hcov0] at h
    simp only [Bool.not_true, Bool.false_or] at h
    exact h
  have hcovj : ∀ j : Nat,
      Constraint.covered ⟨all_variables, item_constraint_factory j⟩ sol = true := by
    intro j
    unfold Constraint.covered
    apply List.all_eq_true.mpr
    intro v hv
    exact hkeyAll v hv
  have hmemj : ∀ j, j < 5 →
      (⟨all_variables, item_constraint_factory j⟩ : Constraint) ∈ instanceConstraints := by
    intro j hj
    apply List.mem_cons_of_mem
    apply List.mem_map.mpr
    refine ⟨j, List.mem_range.mpr ?_, rfl⟩
    have h5 : orders.length = 5 := rfl
    omega
  have holdj : ∀ j, j < 5 → item_constraint_factory j
      (all_variables.map (fun v => (alookup sol v).getD 0)) = true := by
    intro j hj
    have h := hconsE _ (hmemj j hj)
    rw [hcovj j] at h
    simp only [Bool.not_true, Bool.false_or] at h
    exact h
  constructor
  · have hP := of_decide_eq_true hold0
    have hcoll : collectedUnits sol =
        ((order_totals.zip
          (orders_variables.map (fun v => (alookup sol v).getD 0))).map
            (fun p => p.1 * p.2)).sum :=
      filter_map_sum_eq (fun o => order_totals.getD o 0)
        (fun o => (alookup sol (pedidoName o)).getD 0) (List.range 5) hbinP
    rw [hcoll]
    exact hP
  · intro i hi
    have h := of_decide_eq_true (holdj i hi)
    have hd : itemDemand i sol =
        ((List.range 5).map (fun o => ((orders.getD o []).getD i 0) *
          (((all_variables.map (fun v => (alookup sol v).getD 0)).take 5).getD o 0))).sum :=
      filter_map_sum_eq (fun o => (orders.getD o []).getD i 0)
        (fun o => (alookup sol (pedidoName o)).getD 0) (List.range 5) hbinP
    have hc : itemCapacity i sol =
        ((List.range 5).map (fun a => ((corridors.getD a []).getD i 0) *
          (((all_variables.map (fun v => (alookup sol v).getD 0)).drop 5).getD a 0))).sum :=
      filter_map_sum_eq (fun a => (corridors.getD a []).getD i 0)
        (fun a => (alookup sol (corredorName a)).getD 0) (List.range 5) hbinC
    rw [hd, hc]
    exact h

theorem wave0_mem_solutions : wave0 ∈ solutions := by
  show wave0 ∈ backtrackingAux 11 csp_instance []
  rw [btAux_step 10 csp_instance ([] : Assignment) "Pedido1" ["Pedido2", "Pedido3", "Pedido4", "Pedido5", "Corredor1", "Corredor2", "Corredor3", "Corredor4", "Corredor5"] (by decide) rfl]
  rw [show sortedDomain csp_instance (selectVar csp_instance "Pedido1" ["Pedido2", "Pedido3", "Pedido4", "Pedido5", "Corredor1", "Corredor2", "Corredor3", "Corredor4", "Corredor5"]) = [0, 1] from sort01]
  apply List.mem_flatMap.mpr
  refine ⟨1, by decide, ?_⟩
  show wave0 ∈ (if csp_instance.consistent ([("Pedido1", 1)] : Assignment) = true then backtrackingAux 10 csp_instance ([("Pedido1", 1)] : Assignment) else [])
  rw [if_pos (by decide)]
  rw [btAux_step 9 csp_instance ([("Pedido1", 1)] : Assignment) "Pedido2" ["Pedido3", "Pedido4", "Pedido5", "Corredor1", "Corredor2", "Corredor3", "Corredor4", "Corredor5"] (by decide) rfl]
  rw [show sortedDomain csp_instance (selectVar csp_instance "Pedido2" ["Pedido3", "Pedido4", "Pedido5", "Corredor1", "Corredor2", "Corredor3", "Corredor4", "Corredor5"]) = [0, 1] from sort01]
  apply List.mem_flatMap.mpr
  refine ⟨1, by decide, ?_⟩
  show wave0 ∈ (if csp_instance.consistent ([("Pedido1", 1), ("Pedido2", 1)] : Assignment) = true then backtrackingAux 9 csp_instance ([("Pedido1", 1), ("Pedido2", 1)] : Assignment) else [])
  rw [if_pos (by decide)]
  rw [btAux_step 8 csp_instance ([("Pedido1", 1), ("Pedido2", 1)] : Assignment) "Pedido3" ["Pedido4", "Pedido5", "Corredor1", "Corredor2", "Corredor3", "Corredor4", "Corredor5"] (by decide) rfl]
  rw [show sortedDomain csp_instance (selectVar csp_instance "Pedido3" ["Pedido4", "Pedido5", "Corredor1", "Corredor2", "Corredor3", "Corredor4", "Corredor5"]) = [0, 1] from sort01]
  apply List.mem_flatMap.mpr
  refine ⟨0, by decide, ?_⟩
  show wave0 ∈ (if csp_instance.consistent ([("Pedido1", 1), ("Pedido2", 1), ("Pedido3", 0)] : Assignment) = true then backtrackingAux 8 csp_instance ([("Pedido1", 1), ("Pedido2", 1), ("Pedido3", 0)] : Assignment) else [])
  rw [if_pos (by decide)]
  rw [btAux_step 7 csp_instance ([("Pedido1", 1), ("Pedido2", 1), ("Pedido3", 0)] : Assignment) "Pedido4" ["Pedido5", "Corredor1", "Corredor2", "Corredor3", "Corredor4", "Corredor5"] (by decide) rfl]
  rw [show sortedDomain csp_instance (selectVar csp_instance "Pedido4" ["Pedido5", "Corredor1", "Corredor2", "Corredor3", "Corredor4", "Corredor5"]) = [0, 1] from sort01]
  apply List.mem_flatMap.mpr
  refine ⟨0, by decide, ?_⟩
  show wave0 ∈ (if csp_instance.consistent ([("Pedido1", 1), ("Pedido2", 1), ("Pedido3", 0), ("Pedido4", 0)] : Assignment) = true then backtrackingAux 7 csp_instance ([("Pedido1", 1), ("Pedido2", 1), ("Pedido3", 0), ("Pedido4", 0)] : Assignment) else [])
  rw [if_pos (by decide)]
  rw [btAux_step 6 csp_instance ([("Pedido1", 1), ("Pedido2", 1), ("Pedido3", 0), ("Pedido4", 0)] : Assignment) "Pedido5" ["Corredor1", "Corredor2", "Corredor3", "Corredor4", "Corredor5"] (by decide) rfl]
  rw [show sortedDomain csp_instance (selectVar csp_instance "Pedido5" ["Corredor1", "Corredor2", "Corredor3", "Corredor4", "Corredor5"]) = [0, 1] from sort01]
  apply List.mem_flatMap.mpr
  refine ⟨0, by decide, ?_⟩
  show wave0 ∈ (if csp_instance.consistent ([("Pedido1", 1), ("Pedido2", 1), ("Pedido3", 0), ("Pedido4", 0), ("Pedido5", 0)] : Assignment) = true then backtrackingAux 6 csp_instance ([("Pedido1", 1), ("Pedido2", 1), ("Pedido3", 0), ("Pedido4", 0), ("Pedido5", 0)] : Assignment) else [])
  rw [if_pos (by decide)]
  rw [btAux_step 5 csp_instance ([("Pedido1", 1), ("Pedido2", 1), ("Pedido3", 0), ("Pedido4", 0), ("Pedido5", 0)] : Assignment) "Corredor1" ["Corredor2", "Corredor3", "Corredor4", "Corredor5"] (by decide) rfl]
  rw [show sortedDomain csp_instance (selectVar csp_instance "Corredor1" ["Corredor2", "Corredor3", "Corredor4", "Corredor5"]) = [0, 1] from sort01]
  apply List.mem_flatMap.mpr
  refine ⟨1, by decide, ?_⟩
  show wave0 ∈ (if csp_instance.consistent ([("Pedido1", 1), ("Pedido2", 1), ("Pedido3", 0), ("Pedido4", 0), ("Pedido5", 0), ("Corredor1", 1)] : Assignment) = true then backtrackingAux 5 csp_instance ([("Pedido1", 1), ("Pedido2", 1), ("Pedido3", 0), ("Pedido4", 0), ("Pedido5", 0), ("Corredor1", 1)] : Assignment) else [])
  rw [if_pos (by decide)]
  rw [btAux_step 4 csp_instance ([("Pedido1", 1), ("Pedido2", 1), ("Pedido3", 0), ("Pedido4", 0), ("Pedido5", 0), ("Corredor1", 1)] : Assignment) "Corredor2" ["Corredor3", "Corredor4", "Corredor5"] (by decide) rfl]
  rw [show sortedDomain csp_instance (selectVar csp_instance "Corredor2" ["Corredor3", "Corredor4", "Corredor5"]) = [0, 1] from sort01]
  apply List.mem_flatMap.mpr
  refine ⟨1, by decide, ?_⟩
  show wave0 ∈ (if csp_instance.consistent ([("Pedido1", 1), ("Pedido2", 1), ("Pedido3", 0), ("Pedido4", 0), ("Pedido5", 0), ("Corredor1", 1), ("Corredor2", 1)] : Assignment) = true then backtrackingAux 4 csp_instance ([("Pedido1", 1), ("Pedido2", 1), ("Pedido3", 0), ("Pedido4", 0), ("Pedido5", 0), ("Corredor1", 1), ("Corredor2", 1)] : Assignment) else [])
  rw [if_pos (by decide)]
  rw [btAux_step 3 csp_instance ([("Pedido1", 1), ("Pedido2", 1), ("Pedido3", 0), ("Pedido4", 0), ("Pedido5", 0), ("Corredor1", 1), ("Corredor2", 1)] : Assignment) "Corredor3" ["Corredor4", "Corredor5"] (by decide) rfl]
  rw [show sortedDomain csp_instance (selectVar csp_instance "Corredor3" ["Corredor4", "Corredor5"]) = [0, 1] from sort01]
  apply List.mem_flatMap.mpr
  refine ⟨1, by decide, ?_⟩
  show wave0 ∈ (if csp_instance.consistent ([("Pedido1", 1), ("Pedido2", 1), ("Pedido3", 0), ("Pedido4", 0), ("Pedido5", 0), ("Corredor1", 1), ("Corredor2", 1), ("Corredor3", 1)] : Assignment) = true then backtrackingAux 3 csp_instance ([("Pedido1", 1), ("Pedido2", 1), ("Pedido3", 0), ("Pedido4", 0), ("Pedido5", 0), ("Corredor1", 1), ("Corredor2", 1), ("Corredor3", 1)] : Assignment) else [])
  rw [if_pos (by decide)]
  rw [btAux_step 2 csp_instance ([("Pedido1", 1), ("Pedido2", 1), ("Pedido3", 0), ("Pedido4", 0), ("Pedido5", 0), ("Corredor1", 1), ("Corredor2", 1), ("Corredor3", 1)] : Assignment) "Corredor4" ["Corredor5"] (by decide) rfl]
  rw [show sortedDomain csp_instance (selectVar csp_instance "Corredor4" ["Corredor5"]) = [0, 1] from sort01]
  apply List.mem_flatMap.mpr
  refine ⟨1, by decide, ?_⟩
  show wave0 ∈ (if csp_instance.consistent ([("Pedido1", 1), ("Pedido2", 1), ("Pedido3", 0), ("Pedido4", 0), ("Pedido5", 0), ("Corredor1", 1), ("Corredor2", 1), ("Corredor3", 1), ("Corredor4", 1)] : Assignment) = true then backtrackingAux 2 csp_instance ([("Pedido1", 1), ("Pedido2", 1), ("Pedido3", 0), ("Pedido4", 0), ("Pedido5", 0), ("Corredor1", 1), ("Corredor2", 1), ("Corredor3", 1), ("Corredor4", 1)] : Assignment) else [])
  rw [if_pos (by decide)]
  rw [btAux_step 1 csp_instance ([("Pedido1", 1), ("Pedido2", 1), ("Pedido3", 0), ("Pedido4", 0), ("Pedido5", 0), ("Corredor1", 1), ("Corredor2", 1), ("Corredor3", 1), ("Corredor4", 1)] : Assignment) "Corredor5" [] (by decide) rfl]
  rw [show sortedDomain csp_instance (selectVar csp_instance "Corredor5" []) = [0, 1] from sort01]
  apply List.mem_flatMap.mpr
  refine ⟨1, by decide, ?_⟩
  show wave0 ∈ (if csp_instance.consistent ([("Pedido1", 1), ("Pedido2", 1), ("Pedido3", 0), ("Pedido4", 0), ("Pedido5", 0), ("Corredor1", 1), ("Corredor2", 1), ("Corredor3", 1), ("Corredor4", 1), ("Corredor5", 1)] : Assignment) = true then backtrackingAux 1 csp_instance ([("Pedido1", 1), ("Pedido2", 1), ("Pedido3", 0), ("Pedido4", 0), ("Pedido5", 0), ("Corredor1", 1), ("Corredor2", 1), ("Corredor3", 1), ("Corredor4", 1), ("Corredor5", 1)] : Assignment) else [])
  rw [if_pos (by decide)]
  show wave0 ∈ backtrackingAux (0 + 1) csp_instance wave0
  rw [btAux_complete 0 csp_instance wave0 (by decide)]
  exact List.mem_singleton.mpr rfl

/-- C3 witness: the theorem applied to the concrete emitted wave. -/
theorem instance_solutions_feasible_witness :
    5 ≤ collectedUnits wave0 ∧ collectedUnits wave0 ≤ 12 :=
  (instance_solutions_feasible wave0 wave0_mem_solutions).1

